import Mathlib

/-!
# Minecraft TCP tunnel: framing codec, broker and agent

A shallow embedding of `internal/tunnel/protocol.go`, `cmd/server/main.go` and
`cmd/client/main.go`.

* A byte is a `Nat` below 256, a `uint32` a `Nat` below `2 ^ 32`; conversions
  that truncate in Go are written with an explicit `%`.
* A `net.Conn` is a record `Conn`: whether `Close` was called on it, the bytes
  that are still going to arrive (in the chunks in which `Read` hands them
  out), the bytes written so far, and how many further `Write` calls the
  transport accepts.
* Connections live in a heap `Nat → Conn`; the Go structs hold references
  (indices) into it.
* `sync.RWMutex` is not reentrant.  A `Lock` on a mutex that is already held
  never returns; an operation that reaches such a `Lock` has the outcome
  `blocked`.
-/

namespace tunnel

/-- Header size: 1 byte type + 4 bytes channel id + 4 bytes data length. -/
def HeaderSize : Nat := 9

/-- Maximum size of a packet payload. -/
def MaxPacketSize : Nat := 1024 * 1024

/-- Length of the authorisation key. -/
def AuthKeyLength : Nat := 6

/-- Go `MessageType` constant `AuthKey` (`iota + 1`). -/
def AuthKey : Nat := 1

/-- Go `MessageType` constant `AuthResponse`. -/
def AuthResponse : Nat := 2

/-- Go `MessageType` constant `TunnelData`. -/
def TunnelData : Nat := 3

/-- Go `MessageType` constant `ChannelClosed`. -/
def ChannelClosed : Nat := 4

/-- The `Packet` struct.  A `nil` and an empty `Data` slice are both `[]`. -/
structure Packet where
  Typ : Nat
  ChannelID : Nat
  Data : List Nat
deriving DecidableEq, Repr

/-- Error values that the modelled calls can return. -/
inductive Err where
  /-- Sentinel `io.EOF`. -/
  | EOF
  /-- Sentinel `io.ErrUnexpectedEOF`. -/
  | ErrUnexpectedEOF
  /-- Sentinel `io.ErrShortBuffer`. -/
  | ErrShortBuffer
  /-- Error `use of closed network connection`. -/
  | ErrClosed
  /-- Error `broken pipe`. -/
  | ErrBrokenPipe
deriving DecidableEq, Repr

/-- Go `binary.BigEndian.PutUint32`: `b[0] = byte(v >> 24)`, `b[1] = byte(v >> 16)`,
`b[2] = byte(v >> 8)`, `b[3] = byte(v)`. -/
def PutUint32 (v : Nat) : List Nat :=
  [v >>> 24 % 256, v >>> 16 % 256, v >>> 8 % 256, v % 256]

/-- Go `binary.BigEndian.Uint32`:
`uint32(b[3]) | uint32(b[2])<<8 | uint32(b[1])<<16 | uint32(b[0])<<24`. -/
def Uint32 (b : List Nat) : Nat :=
  b.getD 3 0 ||| b.getD 2 0 <<< 8 ||| b.getD 1 0 <<< 16 ||| b.getD 0 0 <<< 24

/-- One call `r.Read(p)` with `len(p) = n` on a stream that hands out the given
chunks, one chunk (or the part of it that fits) per call, and `io.EOF` once they
are used up.  Returns the bytes read, the error, and the stream that is left. -/
def Read (n : Nat) : List (List Nat) → (List Nat × Option Err) × List (List Nat)
  | [] => (([], some Err.EOF), [])
  | c :: rest =>
    if c.length ≤ n then ((c, none), rest) else ((c.take n, none), c.drop n :: rest)

/-- Go `io.ReadFull(r, buf)`, that is `io.ReadAtLeast(r, buf, len(buf))`:
`for n < min && err == nil { nn, err = r.Read(buf[n:]); n += nn }`, then
`io.ErrUnexpectedEOF` in place of `io.EOF` when some bytes were read.  The
second argument is the number of bytes still missing, `got` the bytes read so
far; each step is one `Read` on the stream. -/
def ReadFull : List (List Nat) → Nat → List Nat → (Option (List Nat) × Option Err) × List (List Nat)
  | r, 0, got => ((some got, none), r)
  | [], _ + 1, got =>
    ((none, some (if got.length > 0 then Err.ErrUnexpectedEOF else Err.EOF)), [])
  | c :: rest, n + 1, got =>
    if c.length ≤ n + 1 then ReadFull rest (n + 1 - c.length) (got ++ c)
    else ((some (got ++ c.take (n + 1)), none), c.drop (n + 1) :: rest)

/-- What `ReadPacket` hands back: the `(*Packet, error)` pair, the stream that
is left, and the size of the payload buffer it allocated with `make`. -/
structure ReadOutcome where
  packet : Option Packet
  err : Option Err
  rest : List (List Nat)
  allocated : Nat
deriving DecidableEq, Repr

/-- Go `ReadPacket(r io.Reader)`: three `binary.Read` calls (1, 4 and 4 bytes, each
an `io.ReadFull`), the size check, then `io.ReadFull` of the payload. -/
def ReadPacket (r : List (List Nat)) : ReadOutcome :=
  match ReadFull r 1 [] with
  | ((none, e), r1) => ⟨none, e, r1, 0⟩
  | ((some msgType, _), r1) =>
    match ReadFull r1 4 [] with
    | ((none, e), r2) => ⟨none, e, r2, 0⟩
    | ((some channelID, _), r2) =>
      match ReadFull r2 4 [] with
      | ((none, e), r3) => ⟨none, e, r3, 0⟩
      | ((some length, _), r3) =>
        if Uint32 length > MaxPacketSize then ⟨none, some Err.ErrShortBuffer, r3, 0⟩
        else if Uint32 length > 0 then
          match ReadFull r3 (Uint32 length) [] with
          | ((none, e), r4) => ⟨none, e, r4, Uint32 length⟩
          | ((some data, _), r4) =>
            ⟨some ⟨msgType.headD 0, Uint32 channelID, data⟩, none, r4, Uint32 length⟩
        else ⟨some ⟨msgType.headD 0, Uint32 channelID, []⟩, none, r3, 0⟩

/-- A `net.Conn`. -/
structure Conn where
  /-- Flag set once `Close` has been called on it. -/
  closed : Bool
  /-- Incoming bytes that have not been read yet. -/
  inp : List (List Nat)
  /-- Outgoing bytes written so far. -/
  out : List Nat
  /-- Number of further `Write` calls that succeed (`none`: all of them). -/
  wleft : Option Nat
deriving DecidableEq, Repr

/-- Go `conn.Close()`. -/
def Conn.Close (c : Conn) : Conn := { c with closed := true }

/-- Go `w.Write(p)`: fails on a closed connection and once the transport is
broken, otherwise appends `p` to the bytes written. -/
def Conn.Write (c : Conn) (p : List Nat) : Option Err × Conn :=
  if c.closed then (some Err.ErrClosed, c)
  else match c.wleft with
    | none => (none, { c with out := c.out ++ p })
    | some 0 => (some Err.ErrBrokenPipe, c)
    | some (k + 1) => (none, { c with out := c.out ++ p, wleft := some k })

/-- Go `writeHeader(w, msgType, channelID, dataLen)`: three `binary.Write` calls,
each one `Write` of the big-endian encoding, returning at the first error. -/
def writeHeader (w : Conn) (msgType channelID dataLen : Nat) : Option Err × Conn :=
  match w.Write [msgType] with
  | (some e, w1) => (some e, w1)
  | (none, w1) =>
    match w1.Write (PutUint32 channelID) with
    | (some e, w2) => (some e, w2)
    | (none, w2) =>
      match w2.Write (PutUint32 dataLen) with
      | (some e, w3) => (some e, w3)
      | (none, w3) => (none, w3)

/-- Go `writePacket(w, msgType, channelID, data)`; `uint32(len(data))` truncates. -/
def writePacket (w : Conn) (msgType channelID : Nat) (data : List Nat) : Option Err × Conn :=
  match writeHeader w msgType channelID (data.length % 2 ^ 32) with
  | (some e, w1) => (some e, w1)
  | (none, w1) => if data.length > 0 then w1.Write data else (none, w1)

/-- Go `WriteAuthPacket(w, data)`. -/
def WriteAuthPacket (w : Conn) (data : List Nat) : Option Err × Conn :=
  writePacket w AuthKey 0 data

/-- Go `WriteAuthResponse(w, success)`. -/
def WriteAuthResponse (w : Conn) (success : Bool) : Option Err × Conn :=
  writePacket w AuthResponse 0 (if success then [1] else [0])

/-- Go `WritePacket(w, channelID, data)`. -/
def WritePacket (w : Conn) (channelID : Nat) (data : List Nat) : Option Err × Conn :=
  writePacket w TunnelData channelID data

/-- Go `WriteChannelClosed(w, channelID)`. -/
def WriteChannelClosed (w : Conn) (channelID : Nat) : Option Err × Conn :=
  writePacket w ChannelClosed channelID []

/-- Go `ReadPacket(conn)` on a connection: a closed connection fails every `Read`
with `use of closed network connection`; an open one delivers `inp`. -/
def Conn.ReadPacket (c : Conn) : (Option Packet × Option Err) × Conn :=
  if c.closed then ((none, some Err.ErrClosed), c)
  else
    let o := tunnel.ReadPacket c.inp
    ((o.packet, o.err), { c with inp := o.rest })

/-- A connection that is open, has nothing written yet and never breaks. -/
def Conn.fresh (inp : List (List Nat)) : Conn := ⟨false, inp, [], none⟩

end tunnel


namespace Go

/-- Result of running a method that takes a `sync.RWMutex`: it returns in state
`s` with value `a`, or it is stuck for ever in a `Lock` call in state `s`. -/
inductive Outcome (σ α : Type) where
  | returned (s : σ) (a : α)
  | blocked (s : σ)

/-- Sequencing: what follows a call runs only when the call returns. -/
def Outcome.bind {σ α β : Type} (o : Outcome σ α) (k : σ → α → Outcome σ β) : Outcome σ β :=
  match o with
  | .returned s a => k s a
  | .blocked s => .blocked s

/-- The state in which the method returned, if it did. -/
def Outcome.state? {σ α : Type} : Outcome σ α → Option σ
  | .returned s _ => some s
  | .blocked _ => none

/-- The state in which the method is stuck, if it is. -/
def Outcome.stuck? {σ α : Type} : Outcome σ α → Option σ
  | .returned _ _ => none
  | .blocked s => some s

/-- Whether the method is stuck in a `Lock` call. -/
def Outcome.isBlocked {σ α : Type} : Outcome σ α → Bool
  | .returned _ _ => false
  | .blocked _ => true

/-- Map lookup `conn, ok := m[id]` on a `map[uint32]net.Conn`, kept as an
association list in which the first entry for a key is the binding. -/
def mapGet : List (Nat × Nat) → Nat → Option Nat
  | [], _ => none
  | (k, v) :: es, id => if k = id then some v else mapGet es id

/-- Built-in `delete(m, id)`. -/
def mapDelete : List (Nat × Nat) → Nat → List (Nat × Nat)
  | [], _ => []
  | (k, v) :: es, id => if k = id then mapDelete es id else (k, v) :: mapDelete es id

/-- Assignment `m[id] = conn`. -/
def mapSet (m : List (Nat × Nat)) (id conn : Nat) : List (Nat × Nat) :=
  (id, conn) :: mapDelete m id

/-- The keys a `for id := range m` loop visits, in the order of the list (Go
leaves the order unspecified; every order is the order of some list). -/
def mapKeys (m : List (Nat × Nat)) : List Nat := m.map Prod.fst

end Go

namespace server
open tunnel Go

/-- The `Server` struct, together with the heap of connections its fields refer
to.  `mu` is `true` while the channel-table mutex is held.  `tunnelMu` is only
ever taken around the single read or write of `tunnelConn` inside
`getTunnelConn` and `setTunnelConn` and is left out; `mcListener` and
`closeOnce` are not used by the functions below. -/
structure Server where
  nextChannelID : Nat
  tunnelConn : Option Nat
  mu : Bool
  channels : List (Nat × Nat)
  conns : Nat → Conn

/-- Go `NewServer(mcListener)`: zero counter, no tunnel, empty channel table. -/
def NewServer (conns : Nat → Conn) : Server := ⟨0, none, false, [], conns⟩

/-- Store a new state for connection `i` in the heap. -/
def Server.setConn (s : Server) (i : Nat) (c : Conn) : Server :=
  { s with conns := Function.update s.conns i c }

/-- Go `conn.Close()` on connection `i`. -/
def Server.closeConn (s : Server) (i : Nat) : Server :=
  s.setConn i (s.conns i).Close

/-- Go `s.mu.Lock()` followed by `k`: never returns when the mutex is held. -/
def Server.Lock {α : Type} (s : Server) (k : Server → Outcome Server α) : Outcome Server α :=
  if s.mu then .blocked s else k { s with mu := true }

/-- Go `s.mu.Unlock()`. -/
def Server.Unlock (s : Server) : Server := { s with mu := false }

/-- Go `addChannel(conn)`: `atomic.AddUint32(&s.nextChannelID, 1)` wraps at
`2 ^ 32`; the new id is then bound to `conn` under the lock. -/
def addChannel (s : Server) (conn : Nat) : Outcome Server Nat :=
  let id := (s.nextChannelID + 1) % 2 ^ 32
  let s1 := { s with nextChannelID := id }
  s1.Lock fun s2 =>
    let s3 := { s2 with channels := mapSet s2.channels id conn }
    .returned s3.Unlock id

/-- Go `removeChannel(id)`. -/
def removeChannel (s : Server) (id : Nat) : Outcome Server Unit :=
  s.Lock fun s1 =>
    let s2 :=
      match mapGet s1.channels id with
      | some conn =>
        let s2 := s1.closeConn conn
        let s3 := { s2 with channels := mapDelete s2.channels id }
        match s3.tunnelConn with
        | some tunnelConn => s3.setConn tunnelConn (WriteChannelClosed (s3.conns tunnelConn) id).2
        | none => s3
      | none => s1
    .returned s2.Unlock ()

/-- Go `getChannel(id)`: `RLock` waits while the mutex is held for writing. -/
def getChannel (s : Server) (id : Nat) : Outcome Server (Option Nat) :=
  if s.mu then .blocked s else .returned s (mapGet s.channels id)

/-- Go `getTunnelConn()`. -/
def getTunnelConn (s : Server) : Option Nat := s.tunnelConn

/-- Go `setTunnelConn(conn)`. -/
def setTunnelConn (s : Server) (conn : Option Nat) : Server := { s with tunnelConn := conn }

/-- The constant `charset` of `generateAuthKey`, as bytes. -/
def charset : List Nat := "ABCDEFGHIJKLMNOPQRSTUVWXYZ0123456789".toList.map Char.toNat

/-- Go `generateAuthKey()`; `rnd i` is what the `i`-th `rand.Intn(len(charset))`
call returns. -/
def generateAuthKey (rnd : Nat → Nat) : List Nat :=
  (List.range AuthKeyLength).map fun i => charset.getD (rnd i % charset.length) 0

/-- Go `handleTunnelConnection(tunnelConn)` from its start to `setTunnelConn`: the
handshake and the replacement of the current tunnel.  The flag tells whether
the function goes on to its read loop (`true`) or has returned (`false`). -/
def handshake (s : Server) (tunnelConn : Nat) (rnd : Nat → Nat) : Server × Bool :=
  let authKey := generateAuthKey rnd
  match WriteAuthPacket (s.conns tunnelConn) authKey with
  | (some _, c1) => ((s.setConn tunnelConn c1).closeConn tunnelConn, false)
  | (none, c1) =>
    match c1.ReadPacket with
    | ((none, _), c2) => ((s.setConn tunnelConn c2).closeConn tunnelConn, false)
    | ((some packet, _), c2) =>
      if packet.Typ ≠ AuthKey ∨ packet.Data ≠ authKey then
        let c3 := (WriteAuthResponse c2 false).2
        ((s.setConn tunnelConn c3).closeConn tunnelConn, false)
      else
        match WriteAuthResponse c2 true with
        | (some _, c3) => ((s.setConn tunnelConn c3).closeConn tunnelConn, false)
        | (none, c3) =>
          let s1 := s.setConn tunnelConn c3
          let s2 :=
            match getTunnelConn s1 with
            | some prevConn => s1.closeConn prevConn
            | none => s1
          (setTunnelConn s2 (some tunnelConn), true)

/-- The body of the read loop of `handleTunnelConnection` for one packet. -/
def routePacket (s : Server) (packet : Packet) : Outcome Server Unit :=
  if packet.Typ = TunnelData then
    (getChannel s packet.ChannelID).bind fun s1 found =>
      match found with
      | none => .returned s1 ()
      | some mcConn =>
        match (s1.conns mcConn).Write packet.Data with
        | (some _, c) => removeChannel (s1.setConn mcConn c) packet.ChannelID
        | (none, c) => .returned (s1.setConn mcConn c) ()
  else if packet.Typ = ChannelClosed then removeChannel s packet.ChannelID
  else .returned s ()

/-- The loop `for id := range s.channels { s.removeChannel(id) }` over the keys
still to visit. -/
def rangeRemove : List Nat → Server → Outcome Server Unit
  | [], s => .returned s ()
  | id :: ids, s => (removeChannel s id).bind fun s1 _ => rangeRemove ids s1

/-- Go `handleTunnelConnection(tunnelConn)` after its read loop has ended:
`tunnelConn.Close()`, then under `s.mu` a `removeChannel` for every key of the
table, then `setTunnelConn(nil)`. -/
def teardown (s : Server) (tunnelConn : Nat) : Outcome Server Unit :=
  let s1 := s.closeConn tunnelConn
  s1.Lock fun s2 =>
    (rangeRemove (mapKeys s2.channels) s2).bind fun s3 _ =>
      .returned (setTunnelConn s3.Unlock none) ()

/-- The read loop of `handleTunnelConnection`: `ReadPacket` on the tunnel, `break`
on an error, otherwise route the packet and go round again.  `fuel` bounds the
number of rounds; `none` means the bound was reached. -/
def readLoop : Nat → Server → Nat → Option (Outcome Server Unit)
  | 0, _, _ => none
  | fuel + 1, s, tunnelConn =>
    match (s.conns tunnelConn).ReadPacket with
    | ((none, _), c) => some (.returned (s.setConn tunnelConn c) ())
    | ((some packet, _), c) =>
      match routePacket (s.setConn tunnelConn c) packet with
      | .blocked s1 => some (.blocked s1)
      | .returned s1 _ => readLoop fuel s1 tunnelConn

/-- Go `handleTunnelConnection(tunnelConn)`: the handshake, the read loop, the
teardown. -/
def handleTunnelConnection (fuel : Nat) (s : Server) (tunnelConn : Nat) (rnd : Nat → Nat) :
    Option (Outcome Server Unit) :=
  match handshake s tunnelConn rnd with
  | (s1, false) => some (.returned s1 ())
  | (s1, true) =>
    match readLoop fuel s1 tunnelConn with
    | none => none
    | some (.blocked s2) => some (.blocked s2)
    | some (.returned s2 _) => some (teardown s2 tunnelConn)

/-- The broker process between steps of its goroutines: the `Server`, where
`main` is, and the player connections the accept loop has handed to a
`handleMinecraftClient` goroutine. -/
structure Broker where
  s : Server
  /-- The tunnel connection whose read loop `main` is in; `none` while `main`
  waits in `tunnelListener.Accept`. -/
  relaying : Option Nat
  /-- Flag set once `main` is stuck for ever in a `Lock` call. -/
  stuck : Bool
  /-- Connections for which `go s.handleMinecraftClient(mcConn)` has been started
  and `addChannel` has not run yet. -/
  pending : List Nat
  /-- Connections with the channel id `addChannel` gave them, while their
  `handleMinecraftClient` is running. -/
  players : List (Nat × Nat)

/-- The broker right after `NewServer`, with both accept loops started. -/
def Broker.init (conns : Nat → Conn) : Broker := ⟨NewServer conns, none, false, [], []⟩

/-- What one of the broker's goroutines, or the network, does next. -/
inductive Event where
  /-- In `main`: `tunnelListener.Accept` returns `conn` and
  `handleTunnelConnection(conn)` runs up to its read loop or its early return. -/
  | tunnelAccept (conn : Nat) (rnd : Nat → Nat)
  /-- In `main`: one round of the read loop of `handleTunnelConnection`, which
  routes a packet or, when `ReadPacket` fails, leaves the loop and runs the
  teardown. -/
  | tunnelRead
  /-- In `acceptMinecraftClients`: `mcListener.Accept` returns `conn`. -/
  | playerAccept (conn : Nat)
  /-- In `handleMinecraftClient`: the `addChannel` call at its start. -/
  | playerRegister (conn : Nat)
  /-- In `handleMinecraftClient`: the function returns and its deferred
  `removeChannel(channelID)` and `mcConn.Close()` run. -/
  | playerExit (conn id : Nat)
  /-- Everything that only changes connections: bytes arriving, peers closing,
  the reads and `WritePacket` calls of the `handleMinecraftClient` loops. -/
  | heap (f : (Nat → Conn) → Nat → Conn)

/-- The broker after the event, or `none` when the event cannot happen in this
state (the goroutine is elsewhere, or it waits for the mutex). -/
def step (b : Broker) : Event → Option Broker
  | .tunnelAccept conn rnd =>
    if b.relaying.isSome || b.stuck then none
    else
      let r := handshake b.s conn rnd
      some { b with s := r.1, relaying := if r.2 then some conn else none }
  | .tunnelRead =>
    match b.relaying with
    | none => none
    | some tunnelConn =>
      if b.stuck then none
      else
        match (b.s.conns tunnelConn).ReadPacket with
        | ((some packet, _), c) =>
          match routePacket (b.s.setConn tunnelConn c) packet with
          | .returned s1 _ => some { b with s := s1 }
          | .blocked _ => none
        | ((none, _), c) =>
          match teardown (b.s.setConn tunnelConn c) tunnelConn with
          | .returned s1 _ => some { b with s := s1, relaying := none }
          | .blocked s1 => some { b with s := s1, stuck := true }
  | .playerAccept conn =>
    if getTunnelConn b.s = none then some { b with s := b.s.closeConn conn }
    else some { b with pending := conn :: b.pending }
  | .playerRegister conn =>
    if conn ∈ b.pending then
      match addChannel b.s conn with
      | .returned s1 id =>
        some { b with s := s1, pending := b.pending.erase conn, players := (conn, id) :: b.players }
      | .blocked _ => none
    else none
  | .playerExit conn id =>
    if (conn, id) ∈ b.players then
      match removeChannel b.s id with
      | .returned s1 _ =>
        some { b with s := s1.closeConn conn, players := b.players.erase (conn, id) }
      | .blocked _ => none
    else none
  | .heap f => some { b with s := { b.s with conns := f b.s.conns } }

/-- The broker after a sequence of events, `none` when one of them cannot
happen. -/
def run : List Event → Broker → Option Broker
  | [], b => some b
  | e :: es, b =>
    match step b e with
    | none => none
    | some b1 => run es b1

/-- A call some goroutine makes on the server's channel table. -/
inductive Call where
  | addChannel (conn : Nat)
  | removeChannel (id : Nat)

/-- How many of the calls are `addChannel` calls. -/
def countAdds : List Call → Nat
  | [] => 0
  | .addChannel _ :: cs => countAdds cs + 1
  | .removeChannel _ :: cs => countAdds cs

/-- Make the calls one after the other on the same `Server` and collect the ids
the `addChannel` calls return, in call order. -/
def runCalls : List Call → Server → Outcome Server (List Nat)
  | [], s => .returned s []
  | .addChannel conn :: cs, s =>
    (addChannel s conn).bind fun s1 id =>
      (runCalls cs s1).bind fun s2 ids => .returned s2 (id :: ids)
  | .removeChannel id :: cs, s =>
    (removeChannel s id).bind fun s1 _ => runCalls cs s1

end server

namespace client
open tunnel Go

/-- The `Client` struct with the heap of connections its fields refer to. -/
structure Client where
  serverConn : Option Nat
  mu : Bool
  channels : List (Nat × Nat)
  conns : Nat → Conn

/-- Go `NewClient()`. -/
def NewClient (conns : Nat → Conn) : Client := ⟨none, false, [], conns⟩

/-- Store a new state for connection `i` in the heap. -/
def Client.setConn (c : Client) (i : Nat) (k : Conn) : Client :=
  { c with conns := Function.update c.conns i k }

/-- Go `conn.Close()` on connection `i`. -/
def Client.closeConn (c : Client) (i : Nat) : Client :=
  c.setConn i (c.conns i).Close

/-- Go `c.mu.Lock()` followed by `k`: never returns when the mutex is held. -/
def Client.Lock {α : Type} (c : Client) (k : Client → Outcome Client α) : Outcome Client α :=
  if c.mu then .blocked c else k { c with mu := true }

/-- Go `c.mu.Unlock()`. -/
def Client.Unlock (c : Client) : Client := { c with mu := false }

/-- Go `addChannel(id, conn)`. -/
def addChannel (c : Client) (id conn : Nat) : Outcome Client Unit :=
  c.Lock fun c1 =>
    let c2 := { c1 with channels := mapSet c1.channels id conn }
    .returned c2.Unlock ()

/-- Go `removeChannel(id)`. -/
def removeChannel (c : Client) (id : Nat) : Outcome Client Unit :=
  c.Lock fun c1 =>
    let c2 :=
      match mapGet c1.channels id with
      | some conn =>
        let c2 := c1.closeConn conn
        { c2 with channels := mapDelete c2.channels id }
      | none => c1
    .returned c2.Unlock ()

/-- The errors `authenticate` builds with `fmt.Errorf`. -/
inductive AuthError where
  | readKey (e : Err)
  | unexpectedKeyType
  | readInput
  | sendKey (e : Err)
  | readResponse (e : Err)
  | unexpectedResponseType
  | wrongKey
deriving DecidableEq, Repr

/-- Go `authenticate(conn)`.  `input` is the line read from the console after
`strings.TrimSpace`, or `none` when `ReadString` fails.  The deadline set on the
connection has no counterpart here. -/
def authenticate (conn : Conn) (input : Option (List Nat)) : Option AuthError × Conn :=
  match conn.ReadPacket with
  | ((none, e), k1) => (some (.readKey (e.getD Err.EOF)), k1)
  | ((some packet, _), k1) =>
    if packet.Typ ≠ AuthKey then (some .unexpectedKeyType, k1)
    else
      match input with
      | none => (some .readInput, k1)
      | some input =>
        match WriteAuthPacket k1 input with
        | (some e, k2) => (some (.sendKey e), k2)
        | (none, k2) =>
          match k2.ReadPacket with
          | ((none, e), k3) => (some (.readResponse (e.getD Err.EOF)), k3)
          | ((some response, _), k3) =>
            if response.Typ ≠ AuthResponse then (some .unexpectedResponseType, k3)
            else if response.Data.length = 0 ∨ response.Data.getD 0 0 = 0 then
              (some .wrongKey, k3)
            else (none, k3)

/-- Where the agent is after one pass through the loop of `main`. -/
inductive Phase where
  /-- Back at the top of the loop after the 5 s sleep. -/
  | Connecting
  /-- Inside `handleTunnelConnection`. -/
  | Relaying
deriving DecidableEq, Repr

/-- One pass through the loop of `main` up to the call of
`handleTunnelConnection`.  `dial` is the connection `net.Dial` returned, or
`none` when it failed. -/
def connect (c : Client) (dial : Option Nat) (input : Option (List Nat)) : Client × Phase :=
  match dial with
  | none => (c, .Connecting)
  | some serverConn =>
    match authenticate (c.conns serverConn) input with
    | (some _, k) => ((c.setConn serverConn k).closeConn serverConn, .Connecting)
    | (none, k) => ({ c.setConn serverConn k with serverConn := some serverConn }, .Relaying)

end client

/-! ## Framing codec -/

namespace tunnel

theorem Uint32_bytes (b0 b1 b2 b3 : Nat) (h1 : b1 < 256) (h2 : b2 < 256) (h3 : b3 < 256) :
    Uint32 [b0, b1, b2, b3] = b0 * 2 ^ 24 + b1 * 2 ^ 16 + b2 * 2 ^ 8 + b3 := by
  have e1 : b3 ||| b2 <<< 8 = 2 ^ 8 * b2 + b3 := by
    rw [Nat.or_comm, Nat.shiftLeft_eq, Nat.mul_comm b2]
    exact (Nat.mul_add_lt_is_or (by omega) b2).symm
  have e2 : (2 ^ 8 * b2 + b3) ||| b1 <<< 16 = 2 ^ 16 * b1 + (2 ^ 8 * b2 + b3) := by
    rw [Nat.or_comm, Nat.shiftLeft_eq, Nat.mul_comm b1]
    exact (Nat.mul_add_lt_is_or (by omega) b1).symm
  have e3 : (2 ^ 16 * b1 + (2 ^ 8 * b2 + b3)) ||| b0 <<< 24
      = 2 ^ 24 * b0 + (2 ^ 16 * b1 + (2 ^ 8 * b2 + b3)) := by
    rw [Nat.or_comm, Nat.shiftLeft_eq, Nat.mul_comm b0]
    exact (Nat.mul_add_lt_is_or (by omega) b0).symm
  simp only [Uint32, List.getD_cons_succ, List.getD_cons_zero]
  rw [e1, e2, e3]
  omega

theorem Uint32_PutUint32 (v : Nat) (hv : v < 2 ^ 32) : Uint32 (PutUint32 v) = v := by
  unfold PutUint32
  rw [Uint32_bytes _ _ _ _ (Nat.mod_lt _ (by decide)) (Nat.mod_lt _ (by decide))
    (Nat.mod_lt _ (by decide))]
  simp only [Nat.shiftRight_eq_div_pow]
  omega

theorem ReadFull_fst (r : List (List Nat)) (n : Nat) (got : List Nat) :
    (ReadFull r n got).1 =
      if n ≤ r.flatten.length then (some (got ++ r.flatten.take n), none)
      else (none, some (if 0 < got.length + r.flatten.length then Err.ErrUnexpectedEOF
        else Err.EOF)) := by
  induction r generalizing n got with
  | nil =>
    cases n with
    | zero => simp [ReadFull]
    | succ n => simp [ReadFull]
  | cons c rest ih =>
    cases n with
    | zero => simp [ReadFull]
    | succ n =>
      simp only [ReadFull]
      by_cases hc : c.length ≤ n + 1
      · rw [if_pos hc, ih]
        simp only [List.flatten_cons, List.length_append, List.take_append_eq_append_take,
          List.append_assoc]
        have ht : List.take (n + 1) c = c := List.take_of_length_le hc
        rw [ht]
        by_cases hn : n + 1 - c.length ≤ rest.flatten.length
        · have h2 : n + 1 ≤ c.length + rest.flatten.length := by omega
          rw [if_pos hn, if_pos h2]
        · have h2 : ¬ (n + 1 ≤ c.length + rest.flatten.length) := by omega
          rw [if_neg hn, if_neg h2]
          by_cases h3 : 0 < got.length + c.length + rest.flatten.length
          · have h4 : 0 < got.length + (c.length + rest.flatten.length) := by omega
            rw [if_pos h3, if_pos h4]
          · have h4 : ¬ (0 < got.length + (c.length + rest.flatten.length)) := by omega
            rw [if_neg h3, if_neg h4]
      · rw [if_neg hc]
        simp only [List.flatten_cons, List.length_append, List.take_append_eq_append_take]
        have h2 : n + 1 ≤ c.length + rest.flatten.length := by omega
        have h3 : n + 1 - c.length = 0 := by omega
        rw [if_pos h2, h3]
        simp

theorem ReadFull_snd (r : List (List Nat)) (n : Nat) (got : List Nat) :
    (ReadFull r n got).2.flatten = r.flatten.drop n := by
  induction r generalizing n got with
  | nil =>
    cases n with
    | zero => simp [ReadFull]
    | succ n => simp [ReadFull]
  | cons c rest ih =>
    cases n with
    | zero => simp [ReadFull]
    | succ n =>
      simp only [ReadFull]
      by_cases hc : c.length ≤ n + 1
      · rw [if_pos hc, ih]
        simp only [List.flatten_cons, List.drop_append_eq_append_drop]
        rw [List.drop_of_length_le hc]
        simp
      · rw [if_neg hc]
        simp only [List.flatten_cons, List.drop_append_eq_append_drop]
        have : n + 1 - c.length = 0 := by omega
        simp [this]

theorem ReadFull_eq (r : List (List Nat)) (n : Nat) :
    ∃ r1, r1.flatten = r.flatten.drop n ∧
      ReadFull r n [] =
        (if n ≤ r.flatten.length then (some (r.flatten.take n), none)
          else (none, some (if 0 < r.flatten.length then Err.ErrUnexpectedEOF else Err.EOF)),
          r1) := by
  refine ⟨(ReadFull r n []).2, ReadFull_snd r n [], ?_⟩
  have h := ReadFull_fst r n []
  simp only [List.nil_append, List.length_nil, Nat.zero_add] at h
  rw [← h]

/-- What `ReadPacket` does, as a function of the bytes of the stream alone. -/
theorem ReadPacket_char (r : List (List Nat)) :
    (r.flatten.length < 9 →
      (ReadPacket r).packet = none ∧
      (ReadPacket r).err = some (if r.flatten.length = 0 ∨ r.flatten.length = 1 ∨
        r.flatten.length = 5 then Err.EOF else Err.ErrUnexpectedEOF) ∧
      (ReadPacket r).rest.flatten = [] ∧ (ReadPacket r).allocated = 0) ∧
    (9 ≤ r.flatten.length → MaxPacketSize < Uint32 ((r.flatten.drop 5).take 4) →
      (ReadPacket r).packet = none ∧ (ReadPacket r).err = some Err.ErrShortBuffer ∧
      (ReadPacket r).rest.flatten = r.flatten.drop 9 ∧ (ReadPacket r).allocated = 0) ∧
    (9 ≤ r.flatten.length → Uint32 ((r.flatten.drop 5).take 4) ≤ MaxPacketSize →
      r.flatten.length < 9 + Uint32 ((r.flatten.drop 5).take 4) →
      (ReadPacket r).packet = none ∧
      (ReadPacket r).err = some (if r.flatten.length = 9 then Err.EOF
        else Err.ErrUnexpectedEOF) ∧
      (ReadPacket r).rest.flatten = [] ∧
      (ReadPacket r).allocated = Uint32 ((r.flatten.drop 5).take 4)) ∧
    (9 ≤ r.flatten.length → Uint32 ((r.flatten.drop 5).take 4) ≤ MaxPacketSize →
      9 + Uint32 ((r.flatten.drop 5).take 4) ≤ r.flatten.length →
      (ReadPacket r).packet = some ⟨r.flatten.headD 0, Uint32 ((r.flatten.drop 1).take 4),
        (r.flatten.drop 9).take (Uint32 ((r.flatten.drop 5).take 4))⟩ ∧
      (ReadPacket r).err = none ∧
      (ReadPacket r).rest.flatten = r.flatten.drop (9 + Uint32 ((r.flatten.drop 5).take 4)) ∧
      (ReadPacket r).allocated = Uint32 ((r.flatten.drop 5).take 4)) := by
  obtain ⟨r1, f1, e1⟩ := ReadFull_eq r 1
  obtain ⟨r2, f2, e2⟩ := ReadFull_eq r1 4
  obtain ⟨r3, f3, e3⟩ := ReadFull_eq r2 4
  obtain ⟨r4, f4, e4⟩ := ReadFull_eq r3 (Uint32 (r2.flatten.take 4))
  have l1 : r1.flatten.length = r.flatten.length - 1 := by rw [f1, List.length_drop]
  have l2 : r2.flatten.length = r.flatten.length - 5 := by
    rw [f2, List.length_drop, l1]; omega
  have l3 : r3.flatten.length = r.flatten.length - 9 := by
    rw [f3, List.length_drop, l2]; omega
  have d2 : r2.flatten = r.flatten.drop 5 := by rw [f2, f1, List.drop_drop]
  have d3 : r3.flatten = r.flatten.drop 9 := by rw [f3, d2, List.drop_drop]
  have hL : Uint32 (r2.flatten.take 4) = Uint32 ((r.flatten.drop 5).take 4) := by rw [d2]
  have d4 : r4.flatten = r.flatten.drop (9 + Uint32 ((r.flatten.drop 5).take 4)) := by
    rw [f4, d3, List.drop_drop, hL, Nat.add_comm]
  have hd : (r.flatten.take 1).headD 0 = r.flatten.headD 0 := by
    cases r.flatten <;> rfl
  by_cases h1 : 1 ≤ r.flatten.length
  swap
  · have hr : ReadPacket r = ⟨none, some Err.EOF, r1, 0⟩ := by
      unfold ReadPacket
      rw [e1, if_neg h1, if_neg (by omega)]
    have hz : r1.flatten = [] := by
      apply List.eq_nil_of_length_eq_zero; omega
    refine ⟨fun _ => ?_, fun h => ?_, fun h => ?_, fun h => ?_⟩
    · rw [hr]
      refine ⟨rfl, ?_, hz, rfl⟩
      rw [if_pos (Or.inl (by omega))]
    all_goals omega
  by_cases h2 : 4 ≤ r1.flatten.length
  swap
  · have hr : ReadPacket r = ⟨none, some (if 0 < r1.flatten.length then Err.ErrUnexpectedEOF
        else Err.EOF), r2, 0⟩ := by
      unfold ReadPacket
      rw [e1, if_pos h1]
      simp only []
      rw [e2, if_neg h2]
    have hz : r2.flatten = [] := by
      apply List.eq_nil_of_length_eq_zero; omega
    refine ⟨fun _ => ?_, fun h => ?_, fun h => ?_, fun h => ?_⟩
    · rw [hr]
      refine ⟨rfl, ?_, hz, rfl⟩
      simp only [l1]
      by_cases hh : r.flatten.length = 1
      · rw [if_neg (by omega), if_pos (Or.inr (Or.inl hh))]
      · rw [if_pos (by omega), if_neg (by omega)]
    all_goals omega
  by_cases h3 : 4 ≤ r2.flatten.length
  swap
  · have hr : ReadPacket r = ⟨none, some (if 0 < r2.flatten.length then Err.ErrUnexpectedEOF
        else Err.EOF), r3, 0⟩ := by
      unfold ReadPacket
      rw [e1, if_pos h1]
      simp only []
      rw [e2, if_pos h2]
      simp only []
      rw [e3, if_neg h3]
    have hz : r3.flatten = [] := by
      apply List.eq_nil_of_length_eq_zero; omega
    refine ⟨fun _ => ?_, fun h => ?_, fun h => ?_, fun h => ?_⟩
    · rw [hr]
      refine ⟨rfl, ?_, hz, rfl⟩
      simp only [l2]
      by_cases hh : r.flatten.length = 5
      · rw [if_neg (by omega), if_pos (Or.inr (Or.inr hh))]
      · rw [if_pos (by omega), if_neg (by omega)]
    all_goals omega
  have h9 : 9 ≤ r.flatten.length := by omega
  by_cases hbig : Uint32 (r2.flatten.take 4) > MaxPacketSize
  · have hr : ReadPacket r = ⟨none, some Err.ErrShortBuffer, r3, 0⟩ := by
      unfold ReadPacket
      rw [e1, if_pos h1]
      simp only []
      rw [e2, if_pos h2]
      simp only []
      rw [e3, if_pos h3]
      simp only []
      rw [if_pos hbig]
    refine ⟨fun _ => ?_, fun _ _ => ?_, fun _ h => ?_, fun _ h => ?_⟩
    · omega
    · rw [hr]; exact ⟨rfl, rfl, d3, rfl⟩
    all_goals omega
  by_cases hpos : Uint32 (r2.flatten.take 4) > 0
  swap
  · have hr : ReadPacket r = ⟨some ⟨(r.flatten.take 1).headD 0,
        Uint32 (r1.flatten.take 4), []⟩, none, r3, 0⟩ := by
      unfold ReadPacket
      rw [e1, if_pos h1]
      simp only []
      rw [e2, if_pos h2]
      simp only []
      rw [e3, if_pos h3]
      simp only []
      rw [if_neg hbig, if_neg hpos]
    have hL0 : Uint32 ((r.flatten.drop 5).take 4) = 0 := by omega
    refine ⟨fun _ => ?_, fun _ _ => ?_, fun _ _ _ => ?_, fun _ _ _ => ?_⟩
    · omega
    · omega
    · omega
    · rw [hr, hL0, hd, f1]
      exact ⟨by simp, rfl, by simpa using d3, rfl⟩
  by_cases h4 : Uint32 (r2.flatten.take 4) ≤ r3.flatten.length
  swap
  · have hr : ReadPacket r = ⟨none, some (if 0 < r3.flatten.length then Err.ErrUnexpectedEOF
        else Err.EOF), r4, Uint32 (r2.flatten.take 4)⟩ := by
      unfold ReadPacket
      rw [e1, if_pos h1]
      simp only []
      rw [e2, if_pos h2]
      simp only []
      rw [e3, if_pos h3]
      simp only []
      rw [if_neg hbig, if_pos hpos, e4, if_neg h4]
    have hz : r4.flatten = [] := by
      rw [f4]; apply List.drop_eq_nil_of_le; omega
    refine ⟨fun _ => ?_, fun _ _ => ?_, fun _ _ _ => ?_, fun _ _ _ => ?_⟩
    · omega
    · omega
    · rw [hr]
      refine ⟨rfl, ?_, hz, hL⟩
      simp only [l3]
      by_cases hh : r.flatten.length = 9
      · rw [if_neg (by omega), if_pos hh]
      · rw [if_pos (by omega), if_neg hh]
    · omega
  · have hr : ReadPacket r = ⟨some ⟨(r.flatten.take 1).headD 0,
        Uint32 (r1.flatten.take 4),
        r3.flatten.take (Uint32 (r2.flatten.take 4))⟩, none, r4,
        Uint32 (r2.flatten.take 4)⟩ := by
      unfold ReadPacket
      rw [e1, if_pos h1]
      simp only []
      rw [e2, if_pos h2]
      simp only []
      rw [e3, if_pos h3]
      simp only []
      rw [if_neg hbig, if_pos hpos, e4, if_pos h4]
    refine ⟨fun _ => ?_, fun _ _ => ?_, fun _ _ _ => ?_, fun _ _ _ => ?_⟩
    · omega
    · omega
    · omega
    · rw [hr, hd, f1, d3, hL]
      exact ⟨rfl, rfl, d4, rfl⟩

/-- The loop of `ReadFull` makes one `Read` call per step. -/
theorem ReadFull_succ_eq_Read (r : List (List Nat)) (n : Nat) (got : List Nat) :
    ReadFull r (n + 1) got =
      match Read (n + 1) r with
      | ((bs, none), r1) => ReadFull r1 (n + 1 - bs.length) (got ++ bs)
      | ((bs, some _), r1) =>
        ((none, some (if (got ++ bs).length > 0 then Err.ErrUnexpectedEOF else Err.EOF)), r1) := by
  cases r with
  | nil => simp [ReadFull, Read]
  | cons c rest =>
    by_cases hc : c.length ≤ n + 1
    · simp [ReadFull, Read, hc]
    · have hl : (List.take (n + 1) c).length = n + 1 := by
        rw [List.length_take]; omega
      simp only [ReadFull, Read, if_neg hc, hl, Nat.sub_self]

theorem writePacket_ok (w : Conn) (msgType channelID : Nat) (data : List Nat)
    (hopen : w.closed = false) (hw : w.wleft = none) :
    writePacket w msgType channelID data =
      (none, { w with out := w.out ++ ([msgType] ++ PutUint32 channelID ++
        PutUint32 (data.length % 2 ^ 32) ++ data) }) := by
  cases data with
  | nil => simp [writePacket, writeHeader, Conn.Write, hopen, hw]
  | cons d ds => simp [writePacket, writeHeader, Conn.Write, hopen, hw]

/-- A stream whose bytes start with an encoded packet decodes to that packet. -/
theorem ReadPacket_encoded (r : List (List Nat)) (msgType channelID : Nat)
    (data tail : List Nat) (hc : channelID < 2 ^ 32) (hd : data.length ≤ MaxPacketSize)
    (hr : r.flatten = [msgType] ++ PutUint32 channelID ++ PutUint32 (data.length % 2 ^ 32)
      ++ data ++ tail) :
    (ReadPacket r).packet = some ⟨msgType, channelID, data⟩ ∧ (ReadPacket r).err = none ∧
      (ReadPacket r).rest.flatten = tail ∧ (ReadPacket r).allocated = data.length := by
  have hlt : data.length < 2 ^ 32 := by
    have : MaxPacketSize = 1048576 := rfl
    omega
  have hmod : data.length % 2 ^ 32 = data.length := Nat.mod_eq_of_lt hlt
  rw [hmod] at hr
  have e5 : (r.flatten.drop 5).take 4 = PutUint32 data.length := by
    rw [hr]; simp [PutUint32]
  have e1 : (r.flatten.drop 1).take 4 = PutUint32 channelID := by
    rw [hr]; simp [PutUint32]
  have e9 : r.flatten.drop 9 = data ++ tail := by
    rw [hr]; simp [PutUint32]
  have e0 : r.flatten.headD 0 = msgType := by
    rw [hr]; simp
  have hlen : r.flatten.length = 9 + data.length + tail.length := by
    rw [hr]; simp [PutUint32]; omega
  have hL : Uint32 ((r.flatten.drop 5).take 4) = data.length := by
    rw [e5, Uint32_PutUint32 _ hlt]
  obtain ⟨-, -, -, h⟩ := ReadPacket_char r
  obtain ⟨h1, h2, h3, h4⟩ := h (by omega) (by omega) (by omega)
  rw [hL] at h1 h3 h4
  refine ⟨?_, h2, ?_, h4⟩
  · rw [h1, e0, e1, e9, Uint32_PutUint32 _ hc]
    simp
  · rw [h3, ← List.drop_drop, e9]
    simp

end tunnel

/-- C1. Round trip of the framing codec: whatever `writePacket` writes for a type
byte, a 32-bit channel id and a payload of at most 1,048,576 bytes, `ReadPacket`
reads back from a stream holding exactly those bytes (however the stream cuts
them into chunks) as the packet with the same type, channel id and data, with no
error and nothing left over. -/
theorem tunnel.writePacket_ReadPacket_roundtrip (msgType channelID : Nat) (data : List Nat)
    (chunks : List (List Nat)) (ht : msgType < 256) (hc : channelID < 2 ^ 32)
    (hd : data.length ≤ 1048576)
    (hs : chunks.flatten = (writePacket (Conn.fresh []) msgType channelID data).2.out) :
    (writePacket (Conn.fresh []) msgType channelID data).1 = none ∧
    (ReadPacket chunks).packet = some ⟨msgType, channelID, data⟩ ∧
    (ReadPacket chunks).err = none ∧
    (ReadPacket chunks).rest.flatten = [] ∧
    (ReadPacket [(writePacket (Conn.fresh []) msgType channelID data).2.out]).packet
      = some ⟨msgType, channelID, data⟩ := by
  have _ := ht
  have hw := writePacket_ok (Conn.fresh []) msgType channelID data rfl rfl
  have ho : (writePacket (Conn.fresh []) msgType channelID data).2.out
      = [msgType] ++ PutUint32 channelID ++ PutUint32 (data.length % 2 ^ 32) ++ data := by
    rw [hw]; simp [Conn.fresh]
  have h0 : (writePacket (Conn.fresh []) msgType channelID data).1 = none := by rw [hw]
  rw [ho] at hs ⊢
  have h := ReadPacket_encoded chunks msgType channelID data [] hc hd (by rw [hs]; simp)
  have h1 := ReadPacket_encoded [[msgType] ++ PutUint32 channelID ++
    PutUint32 (data.length % 2 ^ 32) ++ data] msgType channelID data [] hc hd (by simp)
  exact ⟨h0, h.1, h.2.1, h.2.2.1, h1.1⟩

/-- Witness for C1: the packet `(3, 258, [7, 8])` delivered in three chunks. -/
theorem tunnel.writePacket_ReadPacket_roundtrip_witness :
    (ReadPacket [[3, 0, 0], [1, 2, 0, 0, 0, 2, 7], [8]]).packet = some ⟨3, 258, [7, 8]⟩ :=
  (tunnel.writePacket_ReadPacket_roundtrip 3 258 [7, 8] [[3, 0, 0], [1, 2, 0, 0, 0, 2, 7], [8]]
    (by decide) (by decide) (by decide) (by decide)).2.1

/-- C2. Wire layout: on a writer that accepts every write, `writePacket` appends
exactly the type byte, the four big-endian bytes of the channel id, the four
big-endian bytes of the payload length and the payload: `9 + len(data)` bytes, no
padding, and for an empty payload the 9-byte header with a zero length field. -/
theorem tunnel.writePacket_wire_layout (w : Conn) (msgType channelID : Nat) (data : List Nat)
    (hopen : w.closed = false) (hw : w.wleft = none) (hlen : data.length < 2 ^ 32) :
    ∃ emitted : List Nat,
      writePacket w msgType channelID data = (none, { w with out := w.out ++ emitted }) ∧
      emitted = [msgType] ++
        [channelID / 2 ^ 24 % 256, channelID / 2 ^ 16 % 256, channelID / 2 ^ 8 % 256,
          channelID % 256] ++
        [data.length / 2 ^ 24 % 256, data.length / 2 ^ 16 % 256, data.length / 2 ^ 8 % 256,
          data.length % 256] ++ data ∧
      (channelID / 2 ^ 24 % 256) * 2 ^ 24 + (channelID / 2 ^ 16 % 256) * 2 ^ 16 +
        (channelID / 2 ^ 8 % 256) * 2 ^ 8 + channelID % 256 = channelID % 2 ^ 32 ∧
      (data.length / 2 ^ 24 % 256) * 2 ^ 24 + (data.length / 2 ^ 16 % 256) * 2 ^ 16 +
        (data.length / 2 ^ 8 % 256) * 2 ^ 8 + data.length % 256 = data.length ∧
      emitted.length = 9 + data.length ∧
      (data = [] → emitted = [msgType, channelID / 2 ^ 24 % 256, channelID / 2 ^ 16 % 256,
        channelID / 2 ^ 8 % 256, channelID % 256, 0, 0, 0, 0]) := by
  refine ⟨_, writePacket_ok w msgType channelID data hopen hw, ?_, ?_, ?_, ?_, ?_⟩
  · rw [Nat.mod_eq_of_lt hlen]
    simp [PutUint32, Nat.shiftRight_eq_div_pow]
  · omega
  · omega
  · simp [PutUint32]; omega
  · intro h
    subst h
    simp [PutUint32, Nat.shiftRight_eq_div_pow]

/-- Witness for C2: a two-byte payload on channel 258. -/
theorem tunnel.writePacket_wire_layout_witness :
    ∃ emitted : List Nat,
      writePacket (Conn.fresh []) 3 258 [7, 8]
        = (none, { Conn.fresh [] with out := (Conn.fresh []).out ++ emitted }) ∧
      emitted.length = 9 + 2 := by
  obtain ⟨e, h1, _, _, _, h5, _⟩ :=
    tunnel.writePacket_wire_layout (Conn.fresh []) 3 258 [7, 8] rfl rfl (by decide)
  exact ⟨e, h1, h5⟩

/-- C3. Oversize rejection: when the first 9 bytes of the stream declare a data
length above 1,048,576, `ReadPacket` returns no packet and the error
`io.ErrShortBuffer`, has taken exactly those 9 bytes off the stream and has
allocated no payload buffer.  That error is returned in no other case, so it is
never the error of a stream that ends early (`io.EOF`, `io.ErrUnexpectedEOF`). -/
theorem tunnel.ReadPacket_oversize_rejected (chunks : List (List Nat))
    (h9 : 9 ≤ chunks.flatten.length)
    (hbig : 1048576 < Uint32 ((chunks.flatten.drop 5).take 4)) :
    (ReadPacket chunks).packet = none ∧
    (ReadPacket chunks).err = some Err.ErrShortBuffer ∧
    (ReadPacket chunks).rest.flatten = chunks.flatten.drop 9 ∧
    (ReadPacket chunks).allocated = 0 ∧
    MaxPacketSize = 1048576 ∧
    (∀ r : List (List Nat), (ReadPacket r).err = some Err.ErrShortBuffer ↔
      (9 ≤ r.flatten.length ∧ 1048576 < Uint32 ((r.flatten.drop 5).take 4))) ∧
    (∀ r : List (List Nat), r.flatten.length < 9 ∨
        r.flatten.length < 9 + Uint32 ((r.flatten.drop 5).take 4) →
      Uint32 ((r.flatten.drop 5).take 4) ≤ 1048576 →
      (ReadPacket r).err = some Err.EOF ∨ (ReadPacket r).err = some Err.ErrUnexpectedEOF) := by
  have hM : MaxPacketSize = 1048576 := rfl
  obtain ⟨-, hB, -, -⟩ := ReadPacket_char chunks
  obtain ⟨b1, b2, b3, b4⟩ := hB h9 (by omega)
  refine ⟨b1, b2, b3, b4, hM, ?_, ?_⟩
  · intro r
    obtain ⟨cA, cB, cC, cD⟩ := ReadPacket_char r
    constructor
    · intro he
      by_cases hlt : r.flatten.length < 9
      · have h := (cA hlt).2.1
        rw [he] at h
        split_ifs at h <;> cases h
      · by_cases hL : 1048576 < Uint32 ((r.flatten.drop 5).take 4)
        · exact ⟨by omega, hL⟩
        · by_cases h4 : r.flatten.length < 9 + Uint32 ((r.flatten.drop 5).take 4)
          · have h := (cC (by omega) (by omega) h4).2.1
            rw [he] at h
            split_ifs at h <;> cases h
          · have h := (cD (by omega) (by omega) (by omega)).2.1
            rw [he] at h
            cases h
    · rintro ⟨h, hL⟩
      exact (cB h (by omega)).2.1
  · intro r hshort hL
    obtain ⟨cA, -, cC, -⟩ := ReadPacket_char r
    by_cases hlt : r.flatten.length < 9
    · rw [(cA hlt).2.1]
      split_ifs <;> simp
    · have h4 : r.flatten.length < 9 + Uint32 ((r.flatten.drop 5).take 4) := by omega
      rw [(cC (by omega) (by omega) h4).2.1]
      split_ifs <;> simp

/-- Witness for C3: a header declaring 16,777,216 bytes, followed by two bytes. -/
theorem tunnel.ReadPacket_oversize_rejected_witness :
    (ReadPacket [[3, 0, 0, 0, 1], [1, 0, 0, 0, 7, 8]]).err = some Err.ErrShortBuffer ∧
    (ReadPacket [[3, 0, 0, 0, 1], [1, 0, 0, 0, 7, 8]]).rest.flatten = [7, 8] := by
  have h := tunnel.ReadPacket_oversize_rejected [[3, 0, 0, 0, 1], [1, 0, 0, 0, 7, 8]]
    (by decide) (by decide)
  exact ⟨h.2.1, h.2.2.1⟩

/-- C4. Partial-stream handling: `ReadPacket` over any split of a byte sequence
into chunks, one chunk per `Read` call, gives the same packet, the same error and
the same left-over bytes as over the sequence delivered in one piece; a packet
it returns has exactly the declared number of data bytes, all present in the
sequence, and when the sequence ends before the 9 header bytes or before the
declared payload the result is a failure without a packet.  (Holds for empty
chunks too, that is for `Read` calls that return no bytes.) -/
theorem tunnel.ReadPacket_chunking (bytes : List Nat) (chunks : List (List Nat))
    (hs : chunks.flatten = bytes) :
    (ReadPacket chunks).packet = (ReadPacket [bytes]).packet ∧
    (ReadPacket chunks).err = (ReadPacket [bytes]).err ∧
    (ReadPacket chunks).rest.flatten = (ReadPacket [bytes]).rest.flatten ∧
    (ReadPacket chunks).allocated = (ReadPacket [bytes]).allocated ∧
    (∀ p, (ReadPacket chunks).packet = some p →
      (ReadPacket chunks).err = none ∧
      p.Data.length = Uint32 ((bytes.drop 5).take 4) ∧
      9 + p.Data.length ≤ bytes.length ∧
      p.Data = (bytes.drop 9).take p.Data.length) ∧
    (bytes.length < 9 ∨ bytes.length < 9 + Uint32 ((bytes.drop 5).take 4) →
      (ReadPacket chunks).packet = none ∧ (ReadPacket chunks).err ≠ none) := by
  have hf : [bytes].flatten = bytes := by simp
  obtain ⟨cA, cB, cC, cD⟩ := ReadPacket_char chunks
  obtain ⟨fA, fB, fC, fD⟩ := ReadPacket_char [bytes]
  rw [hs] at cA cB cC cD
  rw [hf] at fA fB fC fD
  have hM : MaxPacketSize = 1048576 := rfl
  by_cases hlt : bytes.length < 9
  · obtain ⟨a1, a2, a3, a4⟩ := cA hlt
    obtain ⟨b1, b2, b3, b4⟩ := fA hlt
    refine ⟨by rw [a1, b1], by rw [a2, b2], by rw [a3, b3], by rw [a4, b4], ?_, ?_⟩
    · intro p hp
      rw [a1] at hp; cases hp
    · intro _
      exact ⟨a1, by rw [a2]; simp⟩
  by_cases hL : MaxPacketSize < Uint32 ((bytes.drop 5).take 4)
  · obtain ⟨a1, a2, a3, a4⟩ := cB (by omega) hL
    obtain ⟨b1, b2, b3, b4⟩ := fB (by omega) hL
    refine ⟨by rw [a1, b1], by rw [a2, b2], by rw [a3, b3], by rw [a4, b4], ?_, ?_⟩
    · intro p hp
      rw [a1] at hp; cases hp
    · intro _
      exact ⟨a1, by rw [a2]; simp⟩
  by_cases h4 : bytes.length < 9 + Uint32 ((bytes.drop 5).take 4)
  · obtain ⟨a1, a2, a3, a4⟩ := cC (by omega) (by omega) h4
    obtain ⟨b1, b2, b3, b4⟩ := fC (by omega) (by omega) h4
    refine ⟨by rw [a1, b1], by rw [a2, b2], by rw [a3, b3], by rw [a4, b4], ?_, ?_⟩
    · intro p hp
      rw [a1] at hp; cases hp
    · intro _
      exact ⟨a1, by rw [a2]; simp⟩
  · obtain ⟨a1, a2, a3, a4⟩ := cD (by omega) (by omega) (by omega)
    obtain ⟨b1, b2, b3, b4⟩ := fD (by omega) (by omega) (by omega)
    refine ⟨by rw [a1, b1], by rw [a2, b2], by rw [a3, b3], by rw [a4, b4], ?_, ?_⟩
    · intro p hp
      rw [a1] at hp
      cases hp
      have hl : ((bytes.drop 9).take (Uint32 ((bytes.drop 5).take 4))).length
          = Uint32 ((bytes.drop 5).take 4) := by
        rw [List.length_take, List.length_drop]; omega
      refine ⟨a2, hl, ?_, ?_⟩
      · simp only [hl]; omega
      · simp only [hl]
    · intro h
      omega

/-- Witness for C4: eleven bytes delivered one, four, four and two at a time. -/
theorem tunnel.ReadPacket_chunking_witness :
    (ReadPacket [[3], [0, 0, 1, 2], [0, 0, 0, 2], [7, 8]]).packet
      = (ReadPacket [[3, 0, 0, 1, 2, 0, 0, 0, 2, 7, 8]]).packet :=
  (tunnel.ReadPacket_chunking [3, 0, 0, 1, 2, 0, 0, 0, 2, 7, 8]
    [[3], [0, 0, 1, 2], [0, 0, 0, 2], [7, 8]] (by decide)).1

/-! ## Channel table -/

namespace Go

theorem mapGet_mapDelete_self (m : List (Nat × Nat)) (id : Nat) :
    mapGet (mapDelete m id) id = none := by
  induction m with
  | nil => rfl
  | cons e es ih =>
    obtain ⟨k, v⟩ := e
    by_cases hk : k = id
    · simp only [mapDelete, if_pos hk, ih]
    · simp only [mapDelete, if_neg hk, mapGet, ih]

theorem mapGet_mapDelete_other (m : List (Nat × Nat)) (id j : Nat) (hj : j ≠ id) :
    mapGet (mapDelete m id) j = mapGet m j := by
  induction m with
  | nil => rfl
  | cons e es ih =>
    obtain ⟨k, v⟩ := e
    by_cases hk : k = id
    · have hkj : ¬ k = j := fun h => hj (h.symm.trans hk)
      simp only [mapDelete, if_pos hk, mapGet, if_neg hkj, ih]
    · simp only [mapDelete, if_neg hk, mapGet, ih]

theorem mapDelete_of_absent (m : List (Nat × Nat)) (id : Nat) (h : mapGet m id = none) :
    mapDelete m id = m := by
  induction m with
  | nil => rfl
  | cons e es ih =>
    obtain ⟨k, v⟩ := e
    by_cases hk : k = id
    · simp [mapGet, hk] at h
    · simp only [mapGet, if_neg hk] at h
      simp only [mapDelete, if_neg hk, ih h]

end Go

namespace tunnel

theorem Write_closed (c : Conn) (p : List Nat) : (c.Write p).2.closed = c.closed := by
  unfold Conn.Write
  split
  · rfl
  · split <;> rfl

theorem writePacket_closed (w : Conn) (t ch : Nat) (data : List Nat) :
    (writePacket w t ch data).2.closed = w.closed := by
  have h1 := Write_closed w [t]
  have h2 := Write_closed (w.Write [t]).2 (PutUint32 ch)
  have h3 := Write_closed ((w.Write [t]).2.Write (PutUint32 ch)).2
    (PutUint32 (data.length % 2 ^ 32))
  have h4 := Write_closed (((w.Write [t]).2.Write (PutUint32 ch)).2.Write
    (PutUint32 (data.length % 2 ^ 32))).2 data
  unfold writePacket writeHeader
  rcases e1 : w.Write [t] with ⟨_ | e, w1⟩
  · rw [e1] at h1 h2 h3 h4
    simp only at h1 h2 h3 h4 ⊢
    rcases e2 : w1.Write (PutUint32 ch) with ⟨_ | e, w2⟩
    · rw [e2] at h2 h3 h4
      simp only at h2 h3 h4 ⊢
      rcases e3 : w2.Write (PutUint32 (data.length % 2 ^ 32)) with ⟨_ | e, w3⟩
      · rw [e3] at h3 h4
        simp only at h3 h4 ⊢
        split
        · rw [h4, h3, h2, h1]
        · simp only; rw [h3, h2, h1]
      · rw [e3] at h3
        simp only at h3 ⊢
        rw [h3, h2, h1]
    · rw [e2] at h2
      simp only at h2 ⊢
      rw [h2, h1]
  · rw [e1] at h1
    simp only at h1 ⊢
    exact h1

end tunnel

/-! ## Broker -/

namespace server
open tunnel Go

theorem Server.lock_unlock (s : Server) (hmu : s.mu = false) :
    Server.Unlock { s with mu := true } = s := by
  cases s
  simp only [Server.Unlock] at hmu ⊢
  subst hmu
  rfl

theorem removeChannel_absent (s : Server) (id : Nat) (hmu : s.mu = false)
    (h : mapGet s.channels id = none) : removeChannel s id = .returned s () := by
  unfold removeChannel Server.Lock
  simp only [hmu, h, Bool.false_eq_true, if_false]
  rw [Server.lock_unlock s hmu]

theorem removeChannel_present (s : Server) (id conn : Nat) (hmu : s.mu = false)
    (h : mapGet s.channels id = some conn) :
    removeChannel s id = .returned
      (match s.tunnelConn with
        | some t =>
          { s with
            channels := mapDelete s.channels id
            conns := Function.update (Function.update s.conns conn (s.conns conn).Close) t
              (WriteChannelClosed (Function.update s.conns conn (s.conns conn).Close t) id).2 }
        | none =>
          { s with
            channels := mapDelete s.channels id
            conns := Function.update s.conns conn (s.conns conn).Close }) () := by
  unfold removeChannel Server.Lock
  simp only [hmu, h, Bool.false_eq_true, if_false, Server.closeConn, Server.setConn,
    Server.Unlock]
  cases ht : s.tunnelConn with
  | none => simp only
  | some t => simp only

/-- The effect of the broker's `removeChannel` when the mutex is free. -/
theorem removeChannel_effect (s : Server) (id : Nat) (hmu : s.mu = false) :
    ∃ s1, removeChannel s id = .returned s1 () ∧
      s1.mu = false ∧ s1.tunnelConn = s.tunnelConn ∧ s1.nextChannelID = s.nextChannelID ∧
      s1.channels = mapDelete s.channels id ∧
      (∀ conn, mapGet s.channels id = some conn → (s1.conns conn).closed = true) ∧
      (∀ x, mapGet s.channels id ≠ some x → (s1.conns x).closed = (s.conns x).closed) ∧
      (∀ x, mapGet s.channels id ≠ some x → s.tunnelConn ≠ some x →
        s1.conns x = s.conns x) ∧
      (∀ t, s.tunnelConn = some t → mapGet s.channels id ≠ some t →
        s1.conns t = if mapGet s.channels id = none then s.conns t
          else (WriteChannelClosed (s.conns t) id).2) ∧
      (mapGet s.channels id = none → s1 = s) := by
  cases h : mapGet s.channels id with
  | none =>
    refine ⟨s, removeChannel_absent s id hmu h, hmu, rfl, rfl,
      (mapDelete_of_absent _ _ h).symm, ?_, ?_, ?_, ?_, ?_⟩
    · intro conn hc; cases hc
    · intro x _; rfl
    · intro x _ _; rfl
    · intro t _ _; simp
    · intro _; rfl
  | some conn =>
    refine ⟨_, removeChannel_present s id conn hmu h, ?_⟩
    cases ht : s.tunnelConn with
    | none =>
      refine ⟨hmu, rfl, rfl, rfl, ?_, ?_, ?_, ?_, ?_⟩
      · intro c hc
        cases hc
        simp [Conn.Close]
      · intro x hx
        have hx2 : x ≠ conn := fun e => hx (by rw [e])
        simp [Function.update_noteq hx2]
      · intro x hx _
        have hx2 : x ≠ conn := fun e => hx (by rw [e])
        simp [Function.update_noteq hx2]
      · intro t h1; cases h1
      · intro h1; cases h1
    | some t =>
      refine ⟨hmu, rfl, rfl, rfl, ?_, ?_, ?_, ?_, ?_⟩
      · intro c hc
        cases hc
        by_cases e : conn = t
        · subst e
          simp only [Function.update_same]
          rw [WriteChannelClosed, writePacket_closed]
          rfl
        · simp [Function.update_noteq e, Conn.Close]
      · intro x hx
        have hx2 : x ≠ conn := fun e => hx (by rw [e])
        by_cases e : x = t
        · subst e
          simp only [Function.update_same]
          rw [WriteChannelClosed, writePacket_closed, Function.update_noteq hx2]
        · simp [Function.update_noteq e, Function.update_noteq hx2]
      · intro x hx hxt
        have hx2 : x ≠ conn := fun e => hx (by rw [e])
        have e : x ≠ t := fun e => hxt (by rw [e])
        simp [Function.update_noteq e, Function.update_noteq hx2]
      · intro t1 h1 h2
        cases h1
        have hx2 : t ≠ conn := fun e => h2 (by rw [e])
        simp [Function.update_noteq hx2]
      · intro h1; cases h1

theorem addChannel_returned (s : Server) (conn : Nat) (hmu : s.mu = false) :
    addChannel s conn = .returned
      { s with
        nextChannelID := (s.nextChannelID + 1) % 2 ^ 32
        channels := mapSet s.channels ((s.nextChannelID + 1) % 2 ^ 32) conn }
      ((s.nextChannelID + 1) % 2 ^ 32) := by
  unfold addChannel Server.Lock
  simp only [hmu, Bool.false_eq_true, if_false, Server.Unlock]

end server

/-! ## Agent -/

namespace client
open tunnel Go

theorem agent_removeChannel_absent (c : Client) (id : Nat) (hmu : c.mu = false)
    (h : mapGet c.channels id = none) : removeChannel c id = .returned c () := by
  unfold removeChannel Client.Lock
  simp only [hmu, h, Bool.false_eq_true, if_false, Client.Unlock]
  cases c
  simp only at hmu
  subst hmu
  rfl

theorem agent_removeChannel_present (c : Client) (id conn : Nat) (hmu : c.mu = false)
    (h : mapGet c.channels id = some conn) :
    removeChannel c id = .returned
      { c with
        channels := mapDelete c.channels id
        conns := Function.update c.conns conn (c.conns conn).Close } () := by
  unfold removeChannel Client.Lock
  simp only [hmu, h, Bool.false_eq_true, if_false, Client.closeConn, Client.setConn,
    Client.Unlock]

/-- The effect of the agent's `removeChannel` when the mutex is free. -/
theorem agent_removeChannel_effect (c : Client) (id : Nat) (hmu : c.mu = false) :
    ∃ c1, removeChannel c id = .returned c1 () ∧
      c1.mu = false ∧ c1.serverConn = c.serverConn ∧
      c1.channels = mapDelete c.channels id ∧
      (∀ conn, mapGet c.channels id = some conn → (c1.conns conn).closed = true) ∧
      (∀ x, mapGet c.channels id ≠ some x → c1.conns x = c.conns x) ∧
      (mapGet c.channels id = none → c1 = c) := by
  cases h : mapGet c.channels id with
  | none =>
    refine ⟨c, agent_removeChannel_absent c id hmu h, hmu, rfl,
      (mapDelete_of_absent _ _ h).symm, ?_, ?_, ?_⟩
    · intro conn hc; cases hc
    · intro x _; rfl
    · intro _; rfl
  | some conn =>
    refine ⟨_, agent_removeChannel_present c id conn hmu h, hmu, rfl, rfl, ?_, ?_, ?_⟩
    · intro k hk
      cases hk
      simp [Conn.Close]
    · intro x hx
      have hx2 : x ≠ conn := fun e => hx (by rw [e])
      simp [Function.update_noteq hx2]
    · intro h1; cases h1

end client

/-- C10. `removeChannel` touches only its own channel, on the broker and on the
agent: when the call gets the mutex it returns with the entry for `id` erased and
that entry's connection closed; every other id maps to what it mapped to before,
no other connection is closed, the tunnel reference is unchanged, and apart
from the tunnel connection (to which the broker writes the `ChannelClosed`
packet) no other connection changes at all.  When `id` is absent the state is
unchanged, so a second removal of the same id changes nothing. -/
theorem removeChannel_touches_only_its_channel (s : server.Server) (c : client.Client)
    (id : Nat) (hs : s.mu = false) (hc : c.mu = false) :
    (∃ s1, server.removeChannel s id = .returned s1 () ∧
      s1.tunnelConn = s.tunnelConn ∧
      Go.mapGet s1.channels id = none ∧
      (∀ j, j ≠ id → Go.mapGet s1.channels j = Go.mapGet s.channels j) ∧
      (∀ conn, Go.mapGet s.channels id = some conn → (s1.conns conn).closed = true) ∧
      (∀ x, Go.mapGet s.channels id ≠ some x → (s1.conns x).closed = (s.conns x).closed) ∧
      (∀ x, Go.mapGet s.channels id ≠ some x → s.tunnelConn ≠ some x →
        s1.conns x = s.conns x) ∧
      ((∀ i j x, Go.mapGet s.channels i = some x → Go.mapGet s.channels j = some x → i = j) →
        ∀ j x, j ≠ id → Go.mapGet s.channels j = some x →
          Go.mapGet s1.channels j = some x ∧ (s1.conns x).closed = (s.conns x).closed) ∧
      (Go.mapGet s.channels id = none → s1 = s) ∧
      (server.removeChannel s id).bind (fun s2 _ => server.removeChannel s2 id)
        = server.removeChannel s id) ∧
    (∃ c1, client.removeChannel c id = .returned c1 () ∧
      c1.serverConn = c.serverConn ∧
      Go.mapGet c1.channels id = none ∧
      (∀ j, j ≠ id → Go.mapGet c1.channels j = Go.mapGet c.channels j) ∧
      (∀ conn, Go.mapGet c.channels id = some conn → (c1.conns conn).closed = true) ∧
      (∀ x, Go.mapGet c.channels id ≠ some x → c1.conns x = c.conns x) ∧
      ((∀ i j x, Go.mapGet c.channels i = some x → Go.mapGet c.channels j = some x → i = j) →
        ∀ j x, j ≠ id → Go.mapGet c.channels j = some x →
          Go.mapGet c1.channels j = some x ∧ c1.conns x = c.conns x) ∧
      (Go.mapGet c.channels id = none → c1 = c) ∧
      (client.removeChannel c id).bind (fun c2 _ => client.removeChannel c2 id)
        = client.removeChannel c id) := by
  constructor
  · obtain ⟨s1, h1, hmu, ht, _, hch, hcl, hot, hfr, _, hab⟩ := server.removeChannel_effect s id hs
    have hnone : Go.mapGet s1.channels id = none := by
      rw [hch]; exact Go.mapGet_mapDelete_self _ _
    have hoth : ∀ j, j ≠ id → Go.mapGet s1.channels j = Go.mapGet s.channels j := by
      intro j hj; rw [hch]; exact Go.mapGet_mapDelete_other _ _ _ hj
    refine ⟨s1, h1, ht, hnone, hoth, hcl, hot, hfr, ?_, hab, ?_⟩
    · intro hown j x hj hx
      refine ⟨by rw [hoth j hj, hx], hot x ?_⟩
      intro hid
      exact hj (hown j id x hx hid)
    · rw [h1]
      simp only [Go.Outcome.bind]
      exact server.removeChannel_absent s1 id hmu hnone
  · obtain ⟨c1, h1, hmu, ht, hch, hcl, hfr, hab⟩ := client.agent_removeChannel_effect c id hc
    have hnone : Go.mapGet c1.channels id = none := by
      rw [hch]; exact Go.mapGet_mapDelete_self _ _
    have hoth : ∀ j, j ≠ id → Go.mapGet c1.channels j = Go.mapGet c.channels j := by
      intro j hj; rw [hch]; exact Go.mapGet_mapDelete_other _ _ _ hj
    refine ⟨c1, h1, ht, hnone, hoth, hcl, hfr, ?_, hab, ?_⟩
    · intro hown j x hj hx
      refine ⟨by rw [hoth j hj, hx], hfr x ?_⟩
      intro hid
      exact hj (hown j id x hx hid)
    · rw [h1]
      simp only [Go.Outcome.bind]
      exact client.agent_removeChannel_absent c1 id hmu hnone

/-- Witness for C10: channel 1 of three is removed on a broker with a tunnel
and on an agent. -/
theorem removeChannel_touches_only_its_channel_witness :
    (∃ s1, server.removeChannel
        ⟨3, some 9, false, [(1, 5), (2, 6), (3, 7)], fun _ => tunnel.Conn.fresh []⟩ 1
        = .returned s1 () ∧ Go.mapGet s1.channels 1 = none ∧
      Go.mapGet s1.channels 2 = some 6) ∧
    (∃ c1, client.removeChannel
        ⟨some 9, false, [(1, 5), (2, 6), (3, 7)], fun _ => tunnel.Conn.fresh []⟩ 1
        = .returned c1 () ∧ Go.mapGet c1.channels 1 = none ∧
      Go.mapGet c1.channels 2 = some 6) := by
  obtain ⟨⟨s1, h1, _, h3, h4, _⟩, ⟨c1, k1, _, k3, k4, _⟩⟩ :=
    removeChannel_touches_only_its_channel
      ⟨3, some 9, false, [(1, 5), (2, 6), (3, 7)], fun _ => tunnel.Conn.fresh []⟩
      ⟨some 9, false, [(1, 5), (2, 6), (3, 7)], fun _ => tunnel.Conn.fresh []⟩ 1 rfl rfl
  exact ⟨⟨s1, h1, h3, by rw [h4 2 (by decide)]; decide⟩,
    ⟨c1, k1, k3, by rw [k4 2 (by decide)]; decide⟩⟩

namespace server
open tunnel Go

/-- Running calls from a state with a free mutex: every call returns, and the
ids handed out are the successive values of the wrapping counter. -/
theorem runCalls_ids (calls : List Call) (s : Server) (hmu : s.mu = false) :
    ∃ s1, runCalls calls s = .returned s1
        ((List.range (countAdds calls)).map fun k => (s.nextChannelID + k + 1) % 2 ^ 32) ∧
      s1.mu = false := by
  induction calls generalizing s with
  | nil => exact ⟨s, rfl, hmu⟩
  | cons call cs ih =>
    cases call with
    | addChannel conn =>
      obtain ⟨s2, h2, m2⟩ := ih
        { s with
          nextChannelID := (s.nextChannelID + 1) % 2 ^ 32
          channels := mapSet s.channels ((s.nextChannelID + 1) % 2 ^ 32) conn } hmu
      refine ⟨s2, ?_, m2⟩
      simp only [runCalls, addChannel_returned s conn hmu, Outcome.bind, h2, countAdds]
      rw [List.range_succ_eq_map]
      simp only [List.map_cons, List.map_map, Nat.add_zero]
      congr 2
      apply List.map_congr_left
      intro k _
      simp only [Function.comp, Nat.succ_eq_add_one]
      omega
    | removeChannel id =>
      obtain ⟨s1, h1, m1, _, n1, _⟩ := removeChannel_effect s id hmu
      obtain ⟨s2, h2, m2⟩ := ih s1 m1
      refine ⟨s2, ?_, m2⟩
      simp only [runCalls, h1, Outcome.bind, h2, countAdds, n1]

theorem countAdds_replicate (n conn : Nat) :
    countAdds (List.replicate n (Call.addChannel conn)) = n := by
  induction n with
  | zero => rfl
  | succ n ih => simp only [List.replicate_succ, countAdds, ih]

end server

/-- C7 as stated fails: `2 ^ 32 + 1` calls of `addChannel` on a new `Server` all
return, and the ids they return are neither strictly increasing nor pairwise
distinct (the last call returns id 1 again, the counter having wrapped). -/
theorem server.addChannel_id_reused_after_wrap :
    ∃ s1 ids, server.runCalls (List.replicate (2 ^ 32 + 1) (server.Call.addChannel 7))
        (server.NewServer fun _ => tunnel.Conn.fresh []) = .returned s1 ids ∧
      ¬ ids.Pairwise (· < ·) ∧ ¬ ids.Nodup := by
  obtain ⟨s1, h1, _⟩ := server.runCalls_ids
    (List.replicate (2 ^ 32 + 1) (server.Call.addChannel 7))
    (server.NewServer fun _ => tunnel.Conn.fresh []) rfl
  rw [server.countAdds_replicate] at h1
  refine ⟨s1, _, h1, ?_⟩
  have hnd : ¬ ((List.range (2 ^ 32 + 1)).map fun k =>
      ((server.NewServer fun _ => tunnel.Conn.fresh []).nextChannelID + k + 1) % 2 ^ 32).Nodup := by
    intro hn
    have h := List.inj_on_of_nodup_map hn (x := 0) (List.mem_range.mpr (by omega))
      (y := 2 ^ 32) (List.mem_range.mpr (by omega)) (by simp [server.NewServer])
    omega
  refine ⟨fun hp => hnd ?_, hnd⟩
  exact hp.imp (fun h => Nat.ne_of_lt h)

/-- C7, amended. As long as fewer than `2 ^ 32` `addChannel` calls are made on
one `Server`, whatever `removeChannel` calls happen in between, every call
returns and the ids returned are `1, 2, 3, ...` in call order: strictly
increasing and pairwise distinct. -/
theorem server.addChannel_ids_increasing (conns : Nat → tunnel.Conn)
    (calls : List server.Call) (hn : server.countAdds calls < 2 ^ 32) :
    ∃ s1 ids, server.runCalls calls (server.NewServer conns) = .returned s1 ids ∧
      ids = List.range' 1 (server.countAdds calls) ∧
      ids.Pairwise (· < ·) ∧ ids.Nodup := by
  obtain ⟨s1, h1, _⟩ := server.runCalls_ids calls (server.NewServer conns) rfl
  have he : ((List.range (server.countAdds calls)).map fun k =>
      ((server.NewServer conns).nextChannelID + k + 1) % 2 ^ 32)
      = List.range' 1 (server.countAdds calls) := by
    rw [List.range'_eq_map_range]
    apply List.map_congr_left
    intro k hk
    have hk2 := List.mem_range.mp hk
    simp only [server.NewServer]
    omega
  rw [he] at h1
  exact ⟨s1, _, h1, rfl, List.pairwise_lt_range' 1 _, List.nodup_range' 1 _⟩

/-- Witness for the amended C7: three `addChannel` calls with a removal in
between return the ids 1, 2, 3. -/
theorem server.addChannel_ids_increasing_witness :
    ∃ s1 ids, server.runCalls
        [.addChannel 5, .addChannel 6, .removeChannel 1, .addChannel 7]
        (server.NewServer fun _ => tunnel.Conn.fresh []) = .returned s1 ids ∧
      ids = [1, 2, 3] := by
  obtain ⟨s1, ids, h1, h2, _⟩ := server.addChannel_ids_increasing
    (fun _ => tunnel.Conn.fresh [])
    [.addChannel 5, .addChannel 6, .removeChannel 1, .addChannel 7] (by decide)
  exact ⟨s1, ids, h1, by rw [h2]; decide⟩

namespace tunnel

theorem Write_ok (c : Conn) (p : List Nat) (h : (c.Write p).1 = none) :
    (c.Write p).2.out = c.out ++ p ∧ c.closed = false := by
  unfold Conn.Write at h ⊢
  cases hc : c.closed with
  | true => simp [hc] at h
  | false =>
    simp only [hc, Bool.false_eq_true, if_false] at h ⊢
    rcases hw : c.wleft with _ | _ | k
    · simp
    · simp [hw] at h
    · simp

theorem writePacket_ok_out (w : Conn) (t ch : Nat) (data : List Nat)
    (h : (writePacket w t ch data).1 = none) :
    (writePacket w t ch data).2.out
      = w.out ++ ([t] ++ PutUint32 ch ++ PutUint32 (data.length % 2 ^ 32) ++ data) ∧
    w.closed = false := by
  unfold writePacket writeHeader at h ⊢
  generalize data.length % 2 ^ 32 = L at h ⊢
  rcases e1 : w.Write [t] with ⟨_ | e, w1⟩
  swap
  · simp [e1] at h
  have k1 := Write_ok w [t] (by rw [e1])
  rw [e1] at k1
  rcases e2 : w1.Write (PutUint32 ch) with ⟨_ | e, w2⟩
  swap
  · simp [e1, e2] at h
  have k2 := Write_ok w1 (PutUint32 ch) (by rw [e2])
  rw [e2] at k2
  rcases e3 : w2.Write (PutUint32 L) with ⟨_ | e, w3⟩
  swap
  · simp [e1, e2, e3] at h
  have k3 := Write_ok w2 (PutUint32 L) (by rw [e3])
  rw [e3] at k3
  simp only [e1, e2, e3] at h ⊢
  simp only at k1 k2 k3
  refine ⟨?_, k1.2⟩
  by_cases hd : data.length > 0
  · rw [if_pos hd] at h ⊢
    rw [(Write_ok w3 data h).1, k3.1, k2.1, k1.1]
    simp
  · rw [if_neg hd]
    have hnil : data = [] := List.eq_nil_of_length_eq_zero (by omega)
    rw [k3.1, k2.1, k1.1, hnil]
    simp

end tunnel

namespace server
open tunnel Go

theorem handshake_eq (s : Server) (t : Nat) (rnd : Nat → Nat) (c1 c2 : Conn) (p : Packet)
    (e : Option Err)
    (h1 : WriteAuthPacket (s.conns t) (generateAuthKey rnd) = (none, c1))
    (h2 : c1.ReadPacket = ((some p, e), c2)) :
    handshake s t rnd =
      if p.Typ ≠ AuthKey ∨ p.Data ≠ generateAuthKey rnd then
        ((s.setConn t (WriteAuthResponse c2 false).2).closeConn t, false)
      else
        match WriteAuthResponse c2 true with
        | (some _, c3) => ((s.setConn t c3).closeConn t, false)
        | (none, c3) =>
          (setTunnelConn
            (match getTunnelConn (s.setConn t c3) with
              | some prevConn => (s.setConn t c3).closeConn prevConn
              | none => s.setConn t c3) (some t), true) := by
  simp only [handshake, h1, h2]

/-- Every way in which `handshake` ends without attaching the tunnel closes the
new connection and leaves the rest of the server as it was. -/
theorem closed_frame (s : Server) (t : Nat) (c : Conn) :
    ((s.setConn t c).closeConn t).tunnelConn = s.tunnelConn ∧
    ((s.setConn t c).closeConn t).channels = s.channels ∧
    ((s.setConn t c).closeConn t).nextChannelID = s.nextChannelID ∧
    ((s.setConn t c).closeConn t).mu = s.mu ∧
    ((s.setConn t c).closeConn t).conns t = c.Close ∧
    (∀ x, x ≠ t → ((s.setConn t c).closeConn t).conns x = s.conns x) := by
  refine ⟨rfl, rfl, rfl, rfl, ?_, ?_⟩
  · simp [Server.closeConn, Server.setConn]
  · intro x hx
    simp [Server.closeConn, Server.setConn, Function.update_noteq hx]

/-- What `handshake` leaves behind when it attaches the tunnel. -/
theorem attached_frame (s : Server) (t : Nat) (c3 : Conn) :
    let s1 := setTunnelConn
      (match getTunnelConn (s.setConn t c3) with
        | some prevConn => (s.setConn t c3).closeConn prevConn
        | none => s.setConn t c3) (some t)
    s1.tunnelConn = some t ∧ s1.channels = s.channels ∧
    s1.nextChannelID = s.nextChannelID ∧ s1.mu = s.mu ∧
    (∀ prev, s.tunnelConn = some prev → (s1.conns prev).closed = true) ∧
    (s.tunnelConn ≠ some t → s1.conns t = c3) ∧
    (∀ x, x ≠ t → s.tunnelConn ≠ some x → s1.conns x = s.conns x) := by
  intro s1
  cases hp : s.tunnelConn with
  | none =>
    have e : s1 = setTunnelConn (s.setConn t c3) (some t) := by
      simp only [s1, getTunnelConn, Server.setConn, hp]
    rw [e]
    refine ⟨rfl, rfl, rfl, rfl, ?_, ?_, ?_⟩
    · intro prev h; cases h
    · intro _; simp [setTunnelConn, Server.setConn]
    · intro x hx _
      simp [setTunnelConn, Server.setConn, Function.update_noteq hx]
  | some prev =>
    have e : s1 = setTunnelConn ((s.setConn t c3).closeConn prev) (some t) := by
      simp only [s1, getTunnelConn, Server.setConn, hp]
    rw [e]
    refine ⟨rfl, rfl, rfl, rfl, ?_, ?_, ?_⟩
    · intro q h
      cases h
      simp [setTunnelConn, Server.setConn, Server.closeConn, Conn.Close]
    · intro h
      have hne : t ≠ prev := fun e => h (by rw [e])
      simp [setTunnelConn, Server.setConn, Server.closeConn, Function.update_noteq hne]
    · intro x hx hxp
      have hne : x ≠ prev := fun e => hxp (by rw [e])
      simp [setTunnelConn, Server.setConn, Server.closeConn, Function.update_noteq hne,
        Function.update_noteq hx]

/-- When `handshake` attaches the tunnel, the answer was written to an open
connection and the final state is the replacement applied to it. -/
theorem handshake_attached (s : Server) (t : Nat) (rnd : Nat → Nat)
    (h : (handshake s t rnd).2 = true) :
    ∃ c3, c3.closed = false ∧
      (handshake s t rnd).1 = setTunnelConn
        (match getTunnelConn (s.setConn t c3) with
          | some prevConn => (s.setConn t c3).closeConn prevConn
          | none => s.setConn t c3) (some t) := by
  rcases h1 : WriteAuthPacket (s.conns t) (generateAuthKey rnd) with ⟨_ | err, c1⟩
  swap
  · simp [handshake, h1] at h
  rcases h2 : c1.ReadPacket with ⟨⟨_ | p, e⟩, c2⟩
  · simp [handshake, h1, h2] at h
  have heq := handshake_eq s t rnd c1 c2 p e h1 h2
  by_cases hcond : p.Typ ≠ AuthKey ∨ p.Data ≠ generateAuthKey rnd
  · rw [if_pos hcond] at heq
    rw [heq] at h
    cases h
  · rw [if_neg hcond] at heq
    rcases hw : WriteAuthResponse c2 true with ⟨_ | err, c3⟩
    · rw [hw] at heq
      simp only at heq
      have hw2 : writePacket c2 AuthResponse 0 [1] = (none, c3) := by
        have := hw; simpa only [WriteAuthResponse, if_true] using this
      have hopen := (writePacket_ok_out c2 AuthResponse 0 [1] (by rw [hw2])).2
      have hcl := writePacket_closed c2 AuthResponse 0 [1]
      rw [hw2] at hcl
      simp only at hcl
      exact ⟨c3, by rw [hcl, hopen], by rw [heq]⟩
    · rw [hw] at heq
      simp only at heq
      rw [heq] at h
      cases h

end server

/-- C5 as stated fails: the reply is an `AuthKey` packet carrying exactly the
generated key, but the transport breaks before the answer can be written; the
broker then closes the connection without making it the current tunnel, and
nothing beyond the key packet was sent on it (neither answer). -/
theorem server.handshake_match_but_not_attached :
    (tunnel.WriteAuthPacket
      ⟨false, [[1, 0, 0, 0, 0, 0, 0, 0, 6, 65, 65, 65, 65, 65, 65]], [], some 4⟩
      (server.generateAuthKey fun _ => 0)).1 = none ∧
    (tunnel.WriteAuthPacket
      ⟨false, [[1, 0, 0, 0, 0, 0, 0, 0, 6, 65, 65, 65, 65, 65, 65]], [], some 4⟩
      (server.generateAuthKey fun _ => 0)).2.ReadPacket.1
      = (some ⟨tunnel.AuthKey, 0, server.generateAuthKey fun _ => 0⟩, none) ∧
    (server.handshake (server.NewServer fun _ =>
      ⟨false, [[1, 0, 0, 0, 0, 0, 0, 0, 6, 65, 65, 65, 65, 65, 65]], [], some 4⟩) 2
      fun _ => 0).2 = false ∧
    (server.handshake (server.NewServer fun _ =>
      ⟨false, [[1, 0, 0, 0, 0, 0, 0, 0, 6, 65, 65, 65, 65, 65, 65]], [], some 4⟩) 2
      fun _ => 0).1.tunnelConn = none ∧
    ((server.handshake (server.NewServer fun _ =>
      ⟨false, [[1, 0, 0, 0, 0, 0, 0, 0, 6, 65, 65, 65, 65, 65, 65]], [], some 4⟩) 2
      fun _ => 0).1.conns 2).closed = true ∧
    ((server.handshake (server.NewServer fun _ =>
      ⟨false, [[1, 0, 0, 0, 0, 0, 0, 0, 6, 65, 65, 65, 65, 65, 65]], [], some 4⟩) 2
      fun _ => 0).1.conns 2).out = [1, 0, 0, 0, 0, 0, 0, 0, 6, 65, 65, 65, 65, 65, 65] := by
  decide

/-- C5, amended. For every generated key and every reply packet `p` read from a
tunnel attempt: the connection becomes the current tunnel if and only if `p` is
an `AuthKey` packet whose data is exactly the key and the write of
`AuthResponse(success)` succeeds; then the bytes of `AuthResponse(1)` have been
written to it.  When `p` matches but that write fails, the connection is closed
and the tunnel reference and the channel table are unchanged.  When `p` does
not match, `AuthResponse(failure)` is written to the connection (a write error
being ignored), the connection is closed, and the tunnel reference, the channel
table and all other connections are unchanged. -/
theorem server.handshake_auth_decision (s : server.Server) (t : Nat) (rnd : Nat → Nat)
    (c1 c2 : tunnel.Conn) (p : tunnel.Packet) (e : Option tunnel.Err)
    (h1 : tunnel.WriteAuthPacket (s.conns t) (server.generateAuthKey rnd) = (none, c1))
    (h2 : c1.ReadPacket = ((some p, e), c2)) :
    ((server.handshake s t rnd).2 = true ↔
      (p.Typ = tunnel.AuthKey ∧ p.Data = server.generateAuthKey rnd ∧
        (tunnel.WriteAuthResponse c2 true).1 = none)) ∧
    ((server.handshake s t rnd).1.tunnelConn = some t ↔
      (s.tunnelConn = some t ∨ (p.Typ = tunnel.AuthKey ∧ p.Data = server.generateAuthKey rnd ∧
        (tunnel.WriteAuthResponse c2 true).1 = none))) ∧
    (p.Typ = tunnel.AuthKey → p.Data = server.generateAuthKey rnd →
      (tunnel.WriteAuthResponse c2 true).1 = none →
        (tunnel.WriteAuthResponse c2 true).2.out = c2.out ++ [2, 0, 0, 0, 0, 0, 0, 0, 1, 1] ∧
        (s.tunnelConn ≠ some t →
          (server.handshake s t rnd).1.conns t = (tunnel.WriteAuthResponse c2 true).2 ∧
          ((server.handshake s t rnd).1.conns t).closed = false) ∧
        (server.handshake s t rnd).1.channels = s.channels) ∧
    (p.Typ = tunnel.AuthKey → p.Data = server.generateAuthKey rnd →
      (tunnel.WriteAuthResponse c2 true).1 ≠ none →
        ((server.handshake s t rnd).1.conns t).closed = true ∧
        (server.handshake s t rnd).1.tunnelConn = s.tunnelConn ∧
        (server.handshake s t rnd).1.channels = s.channels ∧
        (∀ x, x ≠ t → (server.handshake s t rnd).1.conns x = s.conns x)) ∧
    (¬ (p.Typ = tunnel.AuthKey ∧ p.Data = server.generateAuthKey rnd) →
        (server.handshake s t rnd).1.conns t = (tunnel.WriteAuthResponse c2 false).2.Close ∧
        ((tunnel.WriteAuthResponse c2 false).1 = none →
          (tunnel.WriteAuthResponse c2 false).2.out = c2.out ++ [2, 0, 0, 0, 0, 0, 0, 0, 1, 0]) ∧
        ((server.handshake s t rnd).1.conns t).closed = true ∧
        (server.handshake s t rnd).1.tunnelConn = s.tunnelConn ∧
        (server.handshake s t rnd).1.channels = s.channels ∧
        (∀ x, x ≠ t → (server.handshake s t rnd).1.conns x = s.conns x)) := by
  have heq := server.handshake_eq s t rnd c1 c2 p e h1 h2
  by_cases hm : p.Typ = tunnel.AuthKey ∧ p.Data = server.generateAuthKey rnd
  · have hcond : ¬ (p.Typ ≠ tunnel.AuthKey ∨ p.Data ≠ server.generateAuthKey rnd) := by
      rintro (h | h)
      · exact h hm.1
      · exact h hm.2
    rw [if_neg hcond] at heq
    rcases hw : tunnel.WriteAuthResponse c2 true with ⟨_ | err, c3⟩
    · rw [hw] at heq
      simp only at heq
      obtain ⟨a1, a2, _, _, _, a6, _⟩ := server.attached_frame s t c3
      have hout := tunnel.writePacket_ok_out c2 tunnel.AuthResponse 0 [1]
        (by have := hw; simp only [tunnel.WriteAuthResponse, if_true] at this; rw [this])
      have hw2 : tunnel.writePacket c2 tunnel.AuthResponse 0 [1] = (none, c3) := by
        have := hw; simpa only [tunnel.WriteAuthResponse, if_true] using this
      rw [hw2] at hout
      have hc3 : c3.closed = false := by
        have := tunnel.writePacket_closed c2 tunnel.AuthResponse 0 [1]
        rw [hw2] at this
        simp only at this
        rw [this, hout.2]
      rw [heq]
      refine ⟨by simp [hm], ?_, ?_, ?_, ?_⟩
      · simp only [a1, true_iff]
        exact Or.inr ⟨hm.1, hm.2, trivial⟩
      · intro _ _ _
        refine ⟨?_, ?_, a2⟩
        · rw [hout.1]; rfl
        · intro hne
          exact ⟨a6 hne, by rw [a6 hne]; exact hc3⟩
      · intro _ _ hne
        exact absurd rfl hne
      · intro hn
        exact absurd hm hn
    · rw [hw] at heq
      simp only at heq
      obtain ⟨b1, b2, _, _, b5, b6⟩ := server.closed_frame s t c3
      rw [heq]
      refine ⟨by simp, ?_, ?_, ?_, ?_⟩
      · simp only [b1]
        constructor
        · intro h; exact Or.inl h
        · rintro (h | ⟨_, _, h⟩)
          · exact h
          · cases h
      · intro _ _ h
        cases h
      · intro _ _ _
        exact ⟨by rw [b5]; rfl, b1, b2, b6⟩
      · intro hn
        exact absurd hm hn
  · have hcond : p.Typ ≠ tunnel.AuthKey ∨ p.Data ≠ server.generateAuthKey rnd := by
      by_cases h : p.Typ = tunnel.AuthKey
      · exact Or.inr fun h2 => hm ⟨h, h2⟩
      · exact Or.inl h
    rw [if_pos hcond] at heq
    obtain ⟨b1, b2, _, _, b5, b6⟩ :=
      server.closed_frame s t (tunnel.WriteAuthResponse c2 false).2
    rw [heq]
    refine ⟨?_, ?_, ?_, ?_, ?_⟩
    · constructor
      · intro h; cases h
      · rintro ⟨h3, h4, _⟩; exact absurd ⟨h3, h4⟩ hm
    · simp only [b1]
      constructor
      · intro h; exact Or.inl h
      · rintro (h | ⟨h3, h4, _⟩)
        · exact h
        · exact absurd ⟨h3, h4⟩ hm
    · intro h3 h4; exact absurd ⟨h3, h4⟩ hm
    · intro h3 h4; exact absurd ⟨h3, h4⟩ hm
    · intro _
      refine ⟨b5, ?_, by rw [b5]; rfl, b1, b2, b6⟩
      intro hok
      have hout := tunnel.writePacket_ok_out c2 tunnel.AuthResponse 0 [0]
        (by simpa only [tunnel.WriteAuthResponse, Bool.false_eq_true, if_false] using hok)
      simp only [tunnel.WriteAuthResponse, Bool.false_eq_true, if_false]
      rw [hout.1]; rfl

/-- Witness for the amended C5: the reply carries the key `AAAAAA` that was
generated, every write succeeds, and the connection becomes the tunnel. -/
theorem server.handshake_auth_decision_witness :
    (server.handshake (server.NewServer fun _ =>
        tunnel.Conn.fresh [[1, 0, 0, 0, 0, 0, 0, 0, 6, 65, 65, 65, 65, 65, 65]]) 2
        fun _ => 0).2 = true ↔
      ((⟨1, 0, [65, 65, 65, 65, 65, 65]⟩ : tunnel.Packet).Typ = tunnel.AuthKey ∧
        (⟨1, 0, [65, 65, 65, 65, 65, 65]⟩ : tunnel.Packet).Data
          = server.generateAuthKey (fun _ => 0) ∧
        (tunnel.WriteAuthResponse
          ⟨false, [], [1, 0, 0, 0, 0, 0, 0, 0, 6, 65, 65, 65, 65, 65, 65], none⟩ true).1
          = none) :=
  (server.handshake_auth_decision
    (server.NewServer fun _ =>
      tunnel.Conn.fresh [[1, 0, 0, 0, 0, 0, 0, 0, 6, 65, 65, 65, 65, 65, 65]]) 2 (fun _ => 0)
    ⟨false, [[1, 0, 0, 0, 0, 0, 0, 0, 6, 65, 65, 65, 65, 65, 65]],
      [1, 0, 0, 0, 0, 0, 0, 0, 6, 65, 65, 65, 65, 65, 65], none⟩
    ⟨false, [], [1, 0, 0, 0, 0, 0, 0, 0, 6, 65, 65, 65, 65, 65, 65], none⟩
    ⟨1, 0, [65, 65, 65, 65, 65, 65]⟩ none (by decide) (by decide)).1

namespace server
open tunnel Go

/-- With the mutex free and at least one channel registered, `teardown` never
returns: its first `removeChannel` waits for the mutex `teardown` itself holds.
The tunnel reference and the channel table stay as they were. -/
theorem teardown_blocks (s : Server) (conn : Nat) (hmu : s.mu = false)
    (hne : s.channels ≠ []) :
    ∃ s1, teardown s conn = .blocked s1 ∧ s1.mu = true ∧ s1.tunnelConn = s.tunnelConn ∧
      s1.channels = s.channels ∧ (s1.conns conn).closed = true ∧
      (∀ x, x ≠ conn → s1.conns x = s.conns x) := by
  cases hch : s.channels with
  | nil => exact absurd hch hne
  | cons e es =>
    refine ⟨{ s.closeConn conn with mu := true }, ?_, rfl, rfl, hch, ?_, ?_⟩
    · unfold teardown Server.Lock
      have h1 : (s.closeConn conn).mu = false := hmu
      simp only [h1, Bool.false_eq_true, if_false]
      have h2 : ({ s.closeConn conn with mu := true } : Server).channels = e :: es := hch
      rw [h2]
      simp only [mapKeys, List.map_cons, rangeRemove, removeChannel, Server.Lock, if_true,
        Outcome.bind]
    · simp [Server.closeConn, Server.setConn, Conn.Close]
    · intro x hx
      simp [Server.closeConn, Server.setConn, Function.update_noteq hx]

/-- With the mutex free and no channel registered, `teardown` returns with the
tunnel connection closed and the tunnel reference cleared. -/
theorem teardown_empty (s : Server) (conn : Nat) (hmu : s.mu = false)
    (hnil : s.channels = []) :
    ∃ s1, teardown s conn = .returned s1 () ∧ s1.mu = false ∧ s1.tunnelConn = none ∧
      s1.channels = [] ∧ (s1.conns conn).closed = true := by
  refine ⟨setTunnelConn ({ s.closeConn conn with mu := true } : Server).Unlock none,
    ?_, rfl, rfl, hnil, ?_⟩
  · unfold teardown Server.Lock
    have h1 : (s.closeConn conn).mu = false := hmu
    simp only [h1, Bool.false_eq_true, if_false]
    have h2 : ({ s.closeConn conn with mu := true } : Server).channels = [] := hnil
    rw [h2]
    simp only [mapKeys, List.map_nil, rangeRemove, Outcome.bind]
  · simp [Server.closeConn, Server.setConn, Conn.Close, setTunnelConn, Server.Unlock]

end server

/-- C9 fails on the code. A tunnel (connection 2) authenticates on a new server,
one player connection (5) is registered with `addChannel`, then the tunnel
stream ends, so `ReadPacket` on it fails with `io.EOF`.  The teardown does not
run to completion: it is stuck for ever in the `Lock` of its first
`removeChannel`, with the tunnel reference still set, channel 1 still in the
table and connection 5 still open. -/
theorem server.teardown_deadlocks_with_a_channel :
    (server.handshake (server.NewServer fun _ =>
      tunnel.Conn.fresh [[1, 0, 0, 0, 0, 0, 0, 0, 6, 65, 65, 65, 65, 65, 65]]) 2
      fun _ => 0).2 = true ∧
    ((server.addChannel (server.handshake (server.NewServer fun _ =>
      tunnel.Conn.fresh [[1, 0, 0, 0, 0, 0, 0, 0, 6, 65, 65, 65, 65, 65, 65]]) 2
      fun _ => 0).1 5).state?.map fun s => (s.tunnelConn, s.mu, s.channels))
      = some (some 2, false, [(1, 5)]) ∧
    ((server.addChannel (server.handshake (server.NewServer fun _ =>
      tunnel.Conn.fresh [[1, 0, 0, 0, 0, 0, 0, 0, 6, 65, 65, 65, 65, 65, 65]]) 2
      fun _ => 0).1 5).state?.map fun s => ((s.conns 2).ReadPacket).1.2)
      = some (some tunnel.Err.EOF) ∧
    ((server.addChannel (server.handshake (server.NewServer fun _ =>
      tunnel.Conn.fresh [[1, 0, 0, 0, 0, 0, 0, 0, 6, 65, 65, 65, 65, 65, 65]]) 2
      fun _ => 0).1 5).bind fun s _ => server.teardown s 2).isBlocked = true ∧
    (((server.addChannel (server.handshake (server.NewServer fun _ =>
      tunnel.Conn.fresh [[1, 0, 0, 0, 0, 0, 0, 0, 6, 65, 65, 65, 65, 65, 65]]) 2
      fun _ => 0).1 5).bind fun s _ => server.teardown s 2).stuck?.map fun s =>
        (s.tunnelConn, s.channels, (s.conns 5).closed)) = some (some 2, [(1, 5)], false) := by
  decide

namespace tunnel

/-- Go `ReadPacket` on an open connection whose incoming bytes start with an
encoded packet returns that packet and leaves the bytes after it. -/
theorem Conn_ReadPacket_encoded (c : Conn) (msgType channelID : Nat) (data tail : List Nat)
    (hopen : c.closed = false) (hc : channelID < 2 ^ 32) (hd : data.length ≤ MaxPacketSize)
    (hr : c.inp.flatten = [msgType] ++ PutUint32 channelID ++ PutUint32 (data.length % 2 ^ 32)
      ++ data ++ tail) :
    ∃ rest, c.ReadPacket = ((some ⟨msgType, channelID, data⟩, none), { c with inp := rest }) ∧
      rest.flatten = tail := by
  obtain ⟨h1, h2, h3, _⟩ := ReadPacket_encoded c.inp msgType channelID data tail hc hd hr
  refine ⟨(ReadPacket c.inp).rest, ?_, h3⟩
  unfold Conn.ReadPacket
  simp only [hopen, Bool.false_eq_true, if_false, h1, h2]

end tunnel

namespace client
open tunnel Go

theorem authenticate_reply (conn k1 k2 k3 : Conn) (key reply : Packet) (e1 e2 : Option Err)
    (bytes : List Nat)
    (h1 : conn.ReadPacket = ((some key, e1), k1)) (hk : key.Typ = AuthKey)
    (h3 : WriteAuthPacket k1 bytes = (none, k2))
    (h4 : k2.ReadPacket = ((some reply, e2), k3)) :
    authenticate conn (some bytes) =
      if reply.Typ ≠ AuthResponse then (some .unexpectedResponseType, k3)
      else if reply.Data.length = 0 ∨ reply.Data.getD 0 0 = 0 then (some .wrongKey, k3)
      else (none, k3) := by
  simp only [authenticate, h1, hk, ne_eq, not_true_eq_false, if_false, h3, h4]

end client

/-- C6. The agent's handshake fails closed.  Whatever packet the agent reads as
the broker's answer, if its type is not `AuthResponse`, or its data is empty, or
the first data byte is 0, then `authenticate` returns an error, and with an
error from `authenticate` the pass through `main` closes the connection and goes
back to connecting instead of relaying.  `authenticate` succeeds only after
reading an `AuthResponse` packet with a non-zero first data byte.  The bytes
`WriteAuthResponse(false)` writes are judged a failure (wrong key) and those
`WriteAuthResponse(true)` writes a success. -/
theorem client.authenticate_fails_closed (conn : tunnel.Conn) (input : Option (List Nat)) :
    (∀ (key reply : tunnel.Packet) (e1 e2 : Option tunnel.Err) (k1 k2 k3 : tunnel.Conn)
        (bytes : List Nat),
      conn.ReadPacket = ((some key, e1), k1) → input = some bytes →
      tunnel.WriteAuthPacket k1 bytes = (none, k2) →
      k2.ReadPacket = ((some reply, e2), k3) →
      (reply.Typ ≠ tunnel.AuthResponse ∨ reply.Data = [] ∨ reply.Data.getD 0 0 = 0) →
      (client.authenticate conn input).1 ≠ none) ∧
    ((client.authenticate conn input).1 = none →
      ∃ (key reply : tunnel.Packet) (e1 e2 : Option tunnel.Err) (k1 k2 k3 : tunnel.Conn)
          (bytes : List Nat),
        conn.ReadPacket = ((some key, e1), k1) ∧ key.Typ = tunnel.AuthKey ∧
        input = some bytes ∧ tunnel.WriteAuthPacket k1 bytes = (none, k2) ∧
        k2.ReadPacket = ((some reply, e2), k3) ∧
        reply.Typ = tunnel.AuthResponse ∧ reply.Data ≠ [] ∧ reply.Data.getD 0 0 ≠ 0) ∧
    (∀ (c : client.Client) (serverConn : Nat), c.conns serverConn = conn →
      ((client.connect c (some serverConn) input).2 = client.Phase.Relaying ↔
        (client.authenticate conn input).1 = none) ∧
      ((client.authenticate conn input).1 ≠ none →
        (client.connect c (some serverConn) input).2 = client.Phase.Connecting ∧
        ((client.connect c (some serverConn) input).1.conns serverConn).closed = true ∧
        (client.connect c (some serverConn) input).1.serverConn = c.serverConn)) ∧
    (∀ (key bytes tail : List Nat) (success : Bool),
      conn.closed = false → conn.wleft = none → key.length ≤ tunnel.MaxPacketSize →
      input = some bytes →
      conn.inp.flatten = (tunnel.WriteAuthPacket (tunnel.Conn.fresh []) key).2.out ++
        (tunnel.WriteAuthResponse (tunnel.Conn.fresh []) success).2.out ++ tail →
      (client.authenticate conn input).1
        = if success then none else some client.AuthError.wrongKey) := by
  refine ⟨?_, ?_, ?_, ?_⟩
  · intro key reply e1 e2 k1 k2 k3 bytes h1 hin h3 h4 hbad
    subst hin
    by_cases hk : key.Typ = tunnel.AuthKey
    · rw [client.authenticate_reply conn k1 k2 k3 key reply e1 e2 bytes h1 hk h3 h4]
      by_cases ht : reply.Typ ≠ tunnel.AuthResponse
      · rw [if_pos ht]; simp
      · rw [if_neg ht]
        have hc : reply.Data.length = 0 ∨ reply.Data.getD 0 0 = 0 := by
          rcases hbad with h | h | h
          · exact absurd h ht
          · exact Or.inl (by rw [h]; rfl)
          · exact Or.inr h
        rw [if_pos hc]; simp
    · simp [client.authenticate, h1, hk]
  · intro hok
    rcases h1 : conn.ReadPacket with ⟨⟨_ | key, e1⟩, k1⟩
    · simp [client.authenticate, h1] at hok
    by_cases hk : key.Typ = tunnel.AuthKey
    swap
    · simp [client.authenticate, h1, hk] at hok
    cases input with
    | none => simp [client.authenticate, h1, hk] at hok
    | some bytes =>
      rcases h3 : tunnel.WriteAuthPacket k1 bytes with ⟨_ | err, k2⟩
      swap
      · simp [client.authenticate, h1, hk, h3] at hok
      rcases h4 : k2.ReadPacket with ⟨⟨_ | reply, e2⟩, k3⟩
      · simp [client.authenticate, h1, hk, h3, h4] at hok
      rw [client.authenticate_reply conn k1 k2 k3 key reply e1 e2 bytes h1 hk h3 h4] at hok
      by_cases ht : reply.Typ ≠ tunnel.AuthResponse
      · rw [if_pos ht] at hok; cases hok
      · rw [if_neg ht] at hok
        by_cases hc : reply.Data.length = 0 ∨ reply.Data.getD 0 0 = 0
        · rw [if_pos hc] at hok; cases hok
        · refine ⟨key, reply, e1, e2, k1, k2, k3, bytes, rfl, hk, rfl, h3, h4,
            not_not.mp ht, ?_, ?_⟩
          · intro hnil
            exact hc (Or.inl (by rw [hnil]; rfl))
          · intro hz
            exact hc (Or.inr hz)
  · intro c serverConn hconn
    rcases ha : client.authenticate conn input with ⟨_ | err, k⟩
    · simp [client.connect, hconn, ha]
    · simp [client.connect, hconn, ha, client.Client.closeConn, client.Client.setConn,
        tunnel.Conn.Close]
  · intro key bytes tail success hopen hw hlen hin hflat
    subst hin
    have hM : tunnel.MaxPacketSize = 1048576 := rfl
    have ho1 : (tunnel.WriteAuthPacket (tunnel.Conn.fresh []) key).2.out
        = [tunnel.AuthKey] ++ tunnel.PutUint32 0 ++ tunnel.PutUint32 (key.length % 2 ^ 32)
          ++ key := by
      rw [tunnel.WriteAuthPacket, tunnel.writePacket_ok _ _ _ _ rfl rfl]
      simp [tunnel.Conn.fresh]
    have ho2 : (tunnel.WriteAuthResponse (tunnel.Conn.fresh []) success).2.out
        = [tunnel.AuthResponse] ++ tunnel.PutUint32 0 ++
          tunnel.PutUint32 ((if success then [1] else [0] : List Nat).length % 2 ^ 32)
          ++ (if success then [1] else [0]) := by
      rw [tunnel.WriteAuthResponse, tunnel.writePacket_ok _ _ _ _ rfl rfl]
      simp [tunnel.Conn.fresh]
    rw [ho1, ho2, List.append_assoc] at hflat
    obtain ⟨r1, h1, f1⟩ := tunnel.Conn_ReadPacket_encoded conn tunnel.AuthKey 0 key _ hopen
      (by decide) hlen hflat
    have h3 := tunnel.writePacket_ok { conn with inp := r1 } tunnel.AuthKey 0 bytes hopen hw
    obtain ⟨r2, h4, _⟩ := tunnel.Conn_ReadPacket_encoded
      { conn with inp := r1, out := conn.out ++ ([tunnel.AuthKey] ++ tunnel.PutUint32 0 ++
        tunnel.PutUint32 (bytes.length % 2 ^ 32) ++ bytes) }
      tunnel.AuthResponse 0 (if success then [1] else [0]) tail hopen (by decide)
      (by cases success <;> simp [hM]) f1
    rw [client.authenticate_reply conn _ _ _ _ _ none none bytes h1 rfl h3 h4]
    cases success <;> simp

/-- Witness for C6: the broker sent its key packet and then the bytes of
`WriteAuthResponse(false)`; the agent's handshake ends with the wrong-key error. -/
theorem client.authenticate_fails_closed_witness :
    (client.authenticate
      ⟨false, [[1, 0, 0, 0, 0, 0, 0, 0, 6, 65, 65, 65, 65, 65, 65],
        [2, 0, 0, 0, 0, 0, 0, 0, 1, 0]], [], none⟩
      (some [65, 65, 65, 65, 65, 66])).1 = some client.AuthError.wrongKey :=
  (client.authenticate_fails_closed
    ⟨false, [[1, 0, 0, 0, 0, 0, 0, 0, 6, 65, 65, 65, 65, 65, 65],
      [2, 0, 0, 0, 0, 0, 0, 0, 1, 0]], [], none⟩
    (some [65, 65, 65, 65, 65, 66])).2.2.2 [65, 65, 65, 65, 65, 65] [65, 65, 65, 65, 65, 66] []
    false rfl rfl (by decide) rfl (by decide)

namespace server
open tunnel Go

/-- When `handshake` does not attach the tunnel it has only closed the new
connection. -/
theorem handshake_false_frame (s : Server) (t : Nat) (rnd : Nat → Nat)
    (h : (handshake s t rnd).2 = false) :
    ∃ c, (handshake s t rnd).1 = (s.setConn t c).closeConn t := by
  rcases h1 : WriteAuthPacket (s.conns t) (generateAuthKey rnd) with ⟨_ | err, c1⟩
  swap
  · exact ⟨c1, by simp only [handshake, h1]⟩
  rcases h2 : c1.ReadPacket with ⟨⟨_ | p, e⟩, c2⟩
  · exact ⟨c2, by simp only [handshake, h1, h2]⟩
  have heq := handshake_eq s t rnd c1 c2 p e h1 h2
  by_cases hcond : p.Typ ≠ AuthKey ∨ p.Data ≠ generateAuthKey rnd
  · rw [if_pos hcond] at heq
    exact ⟨_, by rw [heq]⟩
  · rw [if_neg hcond] at heq
    rcases hw : WriteAuthResponse c2 true with ⟨_ | err, c3⟩
    · rw [hw] at heq
      simp only at heq
      rw [heq] at h
      cases h
    · rw [hw] at heq
      simp only at heq
      exact ⟨c3, by rw [heq]⟩

/-- Whenever `teardown` returns, the tunnel reference is cleared. -/
theorem teardown_returned_detached (s s1 : Server) (conn : Nat)
    (h : teardown s conn = .returned s1 ()) : s1.tunnelConn = none := by
  unfold teardown Server.Lock at h
  simp only at h
  by_cases hm : (s.closeConn conn).mu = true
  · rw [if_pos hm] at h
    cases h
  · rw [if_neg hm] at h
    rcases hr : rangeRemove (mapKeys ({ s.closeConn conn with mu := true } : Server).channels)
      { s.closeConn conn with mu := true } with ⟨s3, u⟩ | s3
    · rw [hr] at h
      simp only [Outcome.bind] at h
      cases h
      rfl
    · rw [hr] at h
      simp only [Outcome.bind] at h
      cases h

/-- In the loop of `main`, which calls `handleTunnelConnection` for one accepted
connection after the other, no tunnel is attached when a call starts: a call
that starts without a tunnel and returns leaves no tunnel attached. -/
theorem handleTunnelConnection_returns_detached (fuel : Nat) (s s1 : Server) (t : Nat)
    (rnd : Nat → Nat) (h0 : s.tunnelConn = none)
    (h : handleTunnelConnection fuel s t rnd = some (.returned s1 ())) :
    s1.tunnelConn = none := by
  unfold handleTunnelConnection at h
  rcases hh : handshake s t rnd with ⟨s2, _ | _⟩
  · rw [hh] at h
    simp only [Option.some.injEq, Outcome.returned.injEq, and_true] at h
    obtain ⟨c, hc⟩ := handshake_false_frame s t rnd (by rw [hh])
    rw [hh] at hc
    simp only at hc
    rw [← h, hc]
    exact h0
  · rw [hh] at h
    simp only at h
    rcases hl : readLoop fuel s2 t with _ | ⟨s3, u⟩ | s3
    · rw [hl] at h; cases h
    · rw [hl] at h
      simp only [Option.some.injEq] at h
      exact teardown_returned_detached s3 s1 t h
    · rw [hl] at h
      simp only [Option.some.injEq] at h
      cases h

end server

namespace server
open tunnel Go

theorem addChannel_keeps_tunnel (s s1 : Server) (conn id : Nat)
    (h : addChannel s conn = .returned s1 id) : s1.tunnelConn = s.tunnelConn := by
  cases hmu : s.mu with
  | true => simp [addChannel, Server.Lock, hmu] at h
  | false =>
    rw [addChannel_returned s conn hmu] at h
    cases h
    rfl

theorem removeChannel_keeps_tunnel (s s1 : Server) (id : Nat)
    (h : removeChannel s id = .returned s1 ()) : s1.tunnelConn = s.tunnelConn := by
  cases hmu : s.mu with
  | true => simp [removeChannel, Server.Lock, hmu] at h
  | false =>
    obtain ⟨s2, h2, _, ht, _⟩ := removeChannel_effect s id hmu
    rw [h2] at h
    cases h
    exact ht

/-- Every event keeps the fact that no tunnel is attached while `main` waits for
the next tunnel connection. -/
theorem step_idle_detached (b b1 : Broker) (e : Event)
    (hinv : b.relaying = none → b.s.tunnelConn = none) (h : step b e = some b1) :
    b1.relaying = none → b1.s.tunnelConn = none := by
  cases e with
  | tunnelAccept conn rnd =>
    simp only [step] at h
    by_cases hc : (b.relaying.isSome || b.stuck) = true
    · rw [if_pos hc] at h; cases h
    · rw [if_neg hc] at h
      cases h
      have hrel : b.relaying = none := by
        cases hr : b.relaying with
        | none => rfl
        | some t => simp [hr] at hc
      cases hf : (handshake b.s conn rnd).2 with
      | true => simp
      | false =>
        intro _
        obtain ⟨c, hc2⟩ := handshake_false_frame b.s conn rnd hf
        simp only [hc2]
        exact hinv hrel
  | tunnelRead =>
    simp only [step] at h
    cases hr : b.relaying with
    | none => rw [hr] at h; cases h
    | some t =>
      rw [hr] at h
      simp only at h
      by_cases hs : b.stuck = true
      · rw [if_pos hs] at h; cases h
      · rw [if_neg hs] at h
        rcases hp : (b.s.conns t).ReadPacket with ⟨⟨_ | packet, e⟩, c⟩
        · rw [hp] at h
          simp only at h
          rcases ht : teardown (b.s.setConn t c) t with ⟨s1, u⟩ | s1
          · rw [ht] at h
            cases h
            intro _
            exact teardown_returned_detached _ _ _ ht
          · rw [ht] at h
            cases h
            intro hn
            simp only at hn
            cases hn
        · rw [hp] at h
          simp only at h
          rcases hq : routePacket (b.s.setConn t c) packet with ⟨s1, u⟩ | s1
          · rw [hq] at h
            cases h
            intro hn
            simp only at hn
            cases hn
          · rw [hq] at h
            cases h
  | playerAccept conn =>
    simp only [step] at h
    by_cases hc : getTunnelConn b.s = none
    · rw [if_pos hc] at h
      cases h
      exact hinv
    · rw [if_neg hc] at h
      cases h
      exact hinv
  | playerRegister conn =>
    simp only [step] at h
    by_cases hc : conn ∈ b.pending
    · rw [if_pos hc] at h
      rcases ha : addChannel b.s conn with ⟨s1, id⟩ | s1
      · rw [ha] at h
        cases h
        intro hn
        simp only
        rw [addChannel_keeps_tunnel _ _ _ _ ha]
        exact hinv hn
      · rw [ha] at h
        cases h
    · rw [if_neg hc] at h; cases h
  | playerExit conn id =>
    simp only [step] at h
    by_cases hc : (conn, id) ∈ b.players
    · rw [if_pos hc] at h
      rcases ha : removeChannel b.s id with ⟨s1, u⟩ | s1
      · rw [ha] at h
        cases h
        intro hn
        have := removeChannel_keeps_tunnel _ _ _ ha
        simp only [Server.closeConn, Server.setConn]
        rw [this]
        exact hinv hn
      · rw [ha] at h
        cases h
    · rw [if_neg hc] at h; cases h
  | heap f =>
    simp only [step] at h
    cases h
    exact hinv

/-- In every run of the broker, no tunnel is attached whenever `main` waits for
the next tunnel connection. -/
theorem run_idle_detached (es : List Event) (b b1 : Broker)
    (hinv : b.relaying = none → b.s.tunnelConn = none) (h : run es b = some b1) :
    b1.relaying = none → b1.s.tunnelConn = none := by
  induction es generalizing b with
  | nil =>
    simp only [run] at h
    cases h
    exact hinv
  | cons e es ih =>
    simp only [run] at h
    cases hs : step b e with
    | none => rw [hs] at h; cases h
    | some b2 =>
      rw [hs] at h
      exact ih b2 (step_idle_detached b b2 e hinv hs) h

end server

/-- C8 as stated fails on a run of the broker from `NewServer`.  Tunnel
connection 2 passes the handshake and is attached; player connection 5 is
accepted while it is attached and handed to `handleMinecraftClient`; the tunnel
stream ends, the read loop is left and the teardown, with an empty table,
returns with the tunnel reference cleared; `handleMinecraftClient` registers
connection 5 as channel 1; tunnel connection 3 passes the handshake.  When
connection 3 has become the current tunnel and its read loop starts, connection 2
is closed, but the channel table is not empty: channel 1 is still registered and
connection 5 is still open. -/
theorem server.new_tunnel_starts_with_stale_channel :
    ((server.run [.tunnelAccept 2 (fun _ => 0), .playerAccept 5]
        (server.Broker.init fun _ =>
          tunnel.Conn.fresh [[1, 0, 0, 0, 0, 0, 0, 0, 6, 65, 65, 65, 65, 65, 65]])).map
      fun b => (b.relaying, b.s.tunnelConn, b.pending, b.s.channels))
      = some (some 2, some 2, [5], []) ∧
    ((server.run [.tunnelAccept 2 (fun _ => 0), .playerAccept 5, .tunnelRead]
        (server.Broker.init fun _ =>
          tunnel.Conn.fresh [[1, 0, 0, 0, 0, 0, 0, 0, 6, 65, 65, 65, 65, 65, 65]])).map
      fun b => (b.relaying, b.s.tunnelConn, b.pending, b.s.channels))
      = some (none, none, [5], []) ∧
    ((server.run [.tunnelAccept 2 (fun _ => 0), .playerAccept 5, .tunnelRead,
          .playerRegister 5]
        (server.Broker.init fun _ =>
          tunnel.Conn.fresh [[1, 0, 0, 0, 0, 0, 0, 0, 6, 65, 65, 65, 65, 65, 65]])).map
      fun b => (b.relaying, b.s.tunnelConn, b.players, b.s.channels))
      = some (none, none, [(5, 1)], [(1, 5)]) ∧
    ((server.run [.tunnelAccept 2 (fun _ => 0), .playerAccept 5, .tunnelRead,
          .playerRegister 5, .tunnelAccept 3 (fun _ => 0)]
        (server.Broker.init fun _ =>
          tunnel.Conn.fresh [[1, 0, 0, 0, 0, 0, 0, 0, 6, 65, 65, 65, 65, 65, 65]])).map
      fun b => (b.relaying, b.s.tunnelConn, (b.s.conns 2).closed))
      = some (some 3, some 3, true) ∧
    ((server.run [.tunnelAccept 2 (fun _ => 0), .playerAccept 5, .tunnelRead,
          .playerRegister 5, .tunnelAccept 3 (fun _ => 0)]
        (server.Broker.init fun _ =>
          tunnel.Conn.fresh [[1, 0, 0, 0, 0, 0, 0, 0, 6, 65, 65, 65, 65, 65, 65]])).map
      fun b => (b.s.channels, (b.s.conns 5).closed))
      = some ([(1, 5)], false) := by
  refine ⟨?_, ?_, ?_, ?_, ?_⟩ <;> decide

/-- C8, amended. Whenever a new tunnel connection passes the handshake, the
replacement step makes the new connection the current tunnel and closes the
connection of the previously attached tunnel, if there is one; the channel table
(and the id counter) are left exactly as they were and no connection other than
those two is touched, so the channels registered at that moment are still
registered when the first packet of the new tunnel is routed.  In a run of the
broker no tunnel is attached whenever `main` waits for the next tunnel
connection, so the step never replaces a live tunnel. -/
theorem server.handshake_replaces_tunnel_only (s : server.Server) (t : Nat) (rnd : Nat → Nat)
    (h : (server.handshake s t rnd).2 = true) :
    (server.handshake s t rnd).1.tunnelConn = some t ∧
    (∀ prev, s.tunnelConn = some prev →
      ((server.handshake s t rnd).1.conns prev).closed = true) ∧
    (s.tunnelConn ≠ some t → ((server.handshake s t rnd).1.conns t).closed = false) ∧
    (server.handshake s t rnd).1.channels = s.channels ∧
    (server.handshake s t rnd).1.nextChannelID = s.nextChannelID ∧
    (∀ x, x ≠ t → s.tunnelConn ≠ some x →
      (server.handshake s t rnd).1.conns x = s.conns x) ∧
    (∀ (conns : Nat → tunnel.Conn) (es : List server.Event) (b : server.Broker),
      server.run es (server.Broker.init conns) = some b → b.relaying = none →
      b.s.tunnelConn = none) := by
  obtain ⟨c3, hc3, heq⟩ := server.handshake_attached s t rnd h
  obtain ⟨a1, a2, a3, _, a5, a6, a7⟩ := server.attached_frame s t c3
  rw [heq]
  refine ⟨a1, a5, fun hne => by rw [a6 hne]; exact hc3, a2, a3, a7, ?_⟩
  intro conns es b hrun
  exact server.run_idle_detached es (server.Broker.init conns) b (fun _ => rfl) hrun

/-- Witness for the amended C8: on a new server, connection 2 passes the
handshake and becomes the current tunnel. -/
theorem server.handshake_replaces_tunnel_only_witness :
    (server.handshake (server.NewServer fun _ =>
      tunnel.Conn.fresh [[1, 0, 0, 0, 0, 0, 0, 0, 6, 65, 65, 65, 65, 65, 65]]) 2
      fun _ => 0).1.tunnelConn = some 2 :=
  (server.handshake_replaces_tunnel_only
    (server.NewServer fun _ =>
      tunnel.Conn.fresh [[1, 0, 0, 0, 0, 0, 0, 0, 6, 65, 65, 65, 65, 65, 65]]) 2
    (fun _ => 0) (by decide)).1
